import Mathlib

/-!
Verification of the sabi task-marketplace backend.

Shallow embedding of the backend route handlers over an explicit database
state.  Each route handler from the source is translated into a pure Lean
function from a `DB` value (the relevant Supabase tables) and the request
payload to an HTTP-level result together with the updated `DB`.

Conventions of the embedding:
* Supabase `select ... .single()` is `selectSingle`: it yields a row exactly
  when precisely one row matches (PostgREST errors on zero or several rows).
* Supabase `update ... .eq(...)` applies the patch to every matching row.
* SQL `=` against a nullable column uses `sqlEq`, under which NULL matches
  nothing (as in SQL); the explicit `.is('col', null)` test is `== none`.
* Timestamp columns (`created_at`, `updated_at`, `actual_start_time`,
  `actual_end_time`, `released_at`) are not modelled: no claim refers to
  their values.  Insertion order of rows stands in for `created_at` order.
* The Stripe gateway adapter never throws (its implementation catches and
  returns a success flag), so a gateway call is modelled by a boolean
  outcome supplied as a parameter, plus the fresh payment-intent id.
* Database reads and writes themselves are assumed reliable (the store of
  the spec is durable and strongly consistent); the conditional-update
  "rows affected" discipline is modelled exactly.
-/

namespace Sabi

/-- Task lifecycle statuses, from the `tasks.status` column. -/
inductive TaskStatus
  | posted
  | assigned
  | inProgress
  | pendingCustomerApproval
  | completed
  | cancelled
  | disputed
deriving DecidableEq, Repr

/-- Payment hold statuses, from the `task_payments.status` column. -/
inductive HoldStatus
  | authorized
  | captured
  | voided
deriving DecidableEq, Repr

/-- A row of the `tasks` table (modelled columns only). -/
structure Task where
  id : String
  customer_id : String
  tasker_id : Option String
  title : String
  description : String
  task_address : String
  budget_min : Rat
  agreed_price : Option Rat
  status : TaskStatus
deriving DecidableEq, Repr

/-- A row of the `task_payments` table. -/
structure PaymentHold where
  task_id : String
  amount_held : Rat
  status : HoldStatus
  stripe_payment_intent_id : Option String
  release_reason : Option String
deriving DecidableEq, Repr

/-- A row of the `users` table (modelled columns only). -/
structure User where
  id : String
  is_active : Bool
  is_available : Bool
  total_earnings : Option Rat
  total_tasks_completed : Option Nat
  average_rating : Option Rat
deriving DecidableEq, Repr

/-- A row of the `task_reviews` table. -/
structure Review where
  task_id : String
  reviewer_id : String
  reviewee_id : Option String
  rating : Nat
  review_text : String
  review_type : String
deriving DecidableEq, Repr

/-- A row of the `dispute_cases` table. -/
structure DisputeCase where
  task_id : String
  complainant_id : String
  respondent_id : Option String
  dispute_reason : String
  description : String
  status : String
deriving DecidableEq, Repr

/-- The database state: the five tables the lifecycle routes touch. -/
structure DB where
  tasks : List Task
  users : List User
  task_payments : List PaymentHold
  task_reviews : List Review
  dispute_cases : List DisputeCase
deriving DecidableEq, Repr

/-- HTTP-level outcome of a route handler (`NextResponse.json` status). -/
inductive ApiResult
  | ok
  | badRequest (msg : String)
  | notFound (msg : String)
  | forbidden (msg : String)
  | conflict (msg : String)
  | serverError (msg : String)
deriving DecidableEq, Repr

/-- The HTTP status code carried by a route response. -/
def ApiResult.httpStatus : ApiResult → Nat
  | .ok => 200
  | .badRequest _ => 400
  | .notFound _ => 404
  | .forbidden _ => 403
  | .conflict _ => 409
  | .serverError _ => 500

/-- Whether a response is the 409 conflict outcome. -/
def ApiResult.isConflict : ApiResult → Bool
  | .conflict _ => true
  | _ => false

/-- SQL equality against a nullable column: NULL matches nothing. -/
def sqlEq (a b : Option String) : Bool :=
  match a, b with
  | some x, some y => x == y
  | _, _ => false

/-- JavaScript truthiness of an optional string (null and empty are falsy). -/
def jsTruthy (s : Option String) : Bool :=
  match s with
  | some x => x != ""
  | none => false

/-- JavaScript `a || b` on an optional numeric column (null and 0 are falsy). -/
def jsOrRat (a : Option Rat) (b : Rat) : Rat :=
  match a with
  | some x => if x = 0 then b else x
  | none => b

/-- PostgREST `.single()`: exactly one matching row, else an error (`none`). -/
def selectSingle {α : Type} (l : List α) (p : α → Bool) : Option α :=
  match l.filter p with
  | [a] => some a
  | _ => none

/-- Apply an UPDATE patch to every row matching the WHERE predicate. -/
def updateRows {α : Type} (l : List α) (p : α → Bool) (f : α → α) : List α :=
  l.map fun a => if p a then f a else a

/-- UPDATE on the `tasks` table. -/
def DB.updateTasks (db : DB) (p : Task → Bool) (f : Task → Task) : DB :=
  { db with tasks := updateRows db.tasks p f }

/-- UPDATE on the `users` table. -/
def DB.updateUsers (db : DB) (p : User → Bool) (f : User → User) : DB :=
  { db with users := updateRows db.users p f }

/-- UPDATE on the `task_payments` table. -/
def DB.updatePayments (db : DB) (p : PaymentHold → Bool) (f : PaymentHold → PaymentHold) : DB :=
  { db with task_payments := updateRows db.task_payments p f }

/-- Review row inserted by an approving confirm call that carries a rating. -/
def insertedReview (tid cid : String) (task : Task) (r : Nat) (fb : Option String) : Review :=
  { task_id := tid, reviewer_id := cid, reviewee_id := task.tasker_id,
    rating := r, review_text := fb.getD "", review_type := "customer_to_tasker" }

/-- Filter for the reviews the average-rating recomputation ranges over. -/
def taskerReviewPred (task : Task) (rv : Review) : Bool :=
  sqlEq rv.reviewee_id task.tasker_id && rv.review_type == "customer_to_tasker"

/-- Arithmetic mean of the ratings of a list of reviews. -/
def meanRating (l : List Review) : Rat :=
  ((l.map (fun rv => (rv.rating : Rat))).sum) / (l.length : Rat)

/-- The state built by the approve branch of confirm-complete once the
pending task, its single authorized hold, and the tasker row have been
found; the rating branch is kept verbatim. -/
def confirmApproveState (db : DB) (tid cid : String) (fb : Option String)
    (rating : Option Nat) (task : Task) (w : User) : DB :=
  let paymentAmount := jsOrRat task.agreed_price task.budget_min
  let db1 := db.updateTasks (fun t => t.id == tid)
    (fun t => { t with status := .completed })
  let dbc := db1.updatePayments
    (fun p => p.task_id == tid && p.status == HoldStatus.authorized)
    (fun p => { p with
      status := .captured,
      release_reason := some "Customer approved task completion" })
  let db2 := dbc.updateUsers (fun u => sqlEq (some u.id) task.tasker_id)
    (fun u => { u with
      total_earnings := some (w.total_earnings.getD 0 + paymentAmount),
      total_tasks_completed := some (w.total_tasks_completed.getD 0 + 1),
      is_available := true })
  match rating with
  | none => db2
  | some r =>
    if 1 ≤ r ∧ r ≤ 5 then
      let dbr := { db2 with task_reviews := db2.task_reviews ++
        [{ task_id := tid, reviewer_id := cid, reviewee_id := task.tasker_id,
           rating := r, review_text := fb.getD "",
           review_type := "customer_to_tasker" }] }
      let reviews : List Review := dbr.task_reviews.filter
        (fun rv => sqlEq rv.reviewee_id task.tasker_id &&
          rv.review_type == "customer_to_tasker")
      if reviews.length > 0 then
        let avgRating : Rat :=
          ((reviews.map (fun rv => (rv.rating : Rat))).sum) / (reviews.length : Rat)
        dbr.updateUsers (fun u => sqlEq (some u.id) task.tasker_id)
          (fun u => { u with average_rating := some avgRating })
      else dbr
    else db2

/-- Ordered trace of the externally relevant actions inside one accept call. -/
inductive AcceptEv
  | claimSucceeded
  | stripeAuthorize
  | stripeFailureLogged
  | holdInserted
deriving DecidableEq, Repr

/-- WHERE clause of the atomic claim update in the accept route:
`.eq('id', taskId).eq('status', 'posted').is('tasker_id', null)`. -/
def claimPred (taskId : String) (t : Task) : Bool :=
  t.id == taskId && t.status == TaskStatus.posted && t.tasker_id == none

/-- SET clause of the atomic claim update. -/
def claimPatch (taskerId : String) (t : Task) : Task :=
  { t with tasker_id := some taskerId, status := TaskStatus.assigned }

/-- The accept route (`POST /api/tasks/accept`): validates the tasker,
claims the task with one conditional update, then authorizes the payment
hold.  `stripeOk` is the gateway outcome, `pid` the fresh payment-intent id.
Returns the response, the new state, and the ordered action trace. -/
def acceptTask (db : DB) (taskId taskerId : String) (stripeOk : Bool) (pid : String) :
    ApiResult × DB × List AcceptEv :=
  if taskId = "" ∨ taskerId = "" then
    (.badRequest "Missing required fields: taskId, taskerId", db, [])
  else
    match selectSingle db.users (fun u => u.id == taskerId && u.is_active) with
    | none => (.notFound "Tasker not found or inactive", db, [])
    | some tasker =>
      if !tasker.is_available then
        (.badRequest "Tasker is not currently available", db, [])
      else
        let db1 := db.updateTasks (claimPred taskId) (claimPatch taskerId)
        match selectSingle db.tasks (claimPred taskId) with
        | none =>
          (.conflict "Task is no longer available or already assigned", db1, [])
        | some t =>
          let updatedTask := claimPatch taskerId t
          let paymentAmount := updatedTask.budget_min
          if stripeOk then
            (.ok,
             { db1 with task_payments := db1.task_payments ++
                 [{ task_id := taskId, amount_held := paymentAmount,
                    status := .authorized, stripe_payment_intent_id := some pid,
                    release_reason := none }] },
             [.claimSucceeded, .stripeAuthorize, .holdInserted])
          else
            (.ok,
             { db1 with task_payments := db1.task_payments ++
                 [{ task_id := taskId, amount_held := paymentAmount,
                    status := .authorized, stripe_payment_intent_id := none,
                    release_reason := none }] },
             [.claimSucceeded, .stripeAuthorize, .stripeFailureLogged, .holdInserted])

/-- The create route (`POST /api/tasks/create`, src/unnamed/part_023):
validates the payload and the customer, then inserts a `posted` task with
`budget_min = budget_max = fixedPrice` and no tasker.  `newId` is the fresh
row id the database generates. -/
def createTask (db : DB) (customerId title description taskAddress : String)
    (fixedPrice : Rat) (newId : String) : ApiResult × DB :=
  if customerId = "" ∨ title = "" ∨ description = "" ∨ taskAddress = "" then
    (.badRequest "Missing required fields: customerId, title, description, taskAddress, fixedPrice", db)
  else if fixedPrice ≤ 0 then
    (.badRequest "Fixed price must be greater than 0", db)
  else
    match selectSingle db.users (fun u => u.id == customerId && u.is_active) with
    | none => (.notFound "Customer not found or inactive", db)
    | some _ =>
      (.ok,
       { db with tasks := db.tasks ++
           [{ id := newId, customer_id := customerId, tasker_id := none,
              title := title, description := description,
              task_address := taskAddress, budget_min := fixedPrice,
              agreed_price := none, status := .posted }] })

/-- The arrived route (`POST /api/tasks/arrived`): checks the task is
assigned to the calling tasker; the update touches only timestamp columns
(`actual_start_time`, `updated_at`), so the modelled state is unchanged. -/
def arrivedTask (db : DB) (taskId taskerId : String) : ApiResult × DB :=
  if taskId = "" ∨ taskerId = "" then
    (.badRequest "Missing required fields: taskId, taskerId", db)
  else
    match selectSingle db.tasks
        (fun t => t.id == taskId && t.tasker_id == some taskerId &&
          t.status == TaskStatus.assigned) with
    | none => (.notFound "Task not found or not assigned to you", db)
    | some _ => (.ok, db)

/-- The start route (`POST /api/tasks/start`): checks the task is assigned
to the calling tasker, then updates the row (WHERE on `id` only) to
`in_progress`. -/
def startTask (db : DB) (taskId taskerId : String) : ApiResult × DB :=
  if taskId = "" ∨ taskerId = "" then
    (.badRequest "Missing required fields: taskId, taskerId", db)
  else
    match selectSingle db.tasks
        (fun t => t.id == taskId && t.tasker_id == some taskerId &&
          t.status == TaskStatus.assigned) with
    | none => (.notFound "Task not found, not assigned to you, or already started", db)
    | some _ =>
      (.ok, db.updateTasks (fun t => t.id == taskId)
        (fun t => { t with status := .inProgress }))

/-- The complete route (`POST /api/tasks/complete`): checks the task is
`in_progress` for the calling tasker, then sets
`pending_customer_approval`; when `completionNotes` is truthy the update
also overwrites `description` with the title plus the notes.  Payment is
deliberately not captured here. -/
def completeTask (db : DB) (taskId taskerId : String)
    (completionNotes : Option String) : ApiResult × DB :=
  if taskId = "" ∨ taskerId = "" then
    (.badRequest "Missing required fields: taskId, taskerId", db)
  else
    match selectSingle db.tasks
        (fun t => t.id == taskId && t.tasker_id == some taskerId &&
          t.status == TaskStatus.inProgress) with
    | none => (.notFound "Task not found, not assigned to you, or not in progress", db)
    | some task =>
      (.ok, db.updateTasks (fun t => t.id == taskId)
        (fun t =>
          { t with status := .pendingCustomerApproval,
                   description :=
                     if jsTruthy completionNotes then
                       task.title ++ "\n\nCompletion Notes: " ++
                         (completionNotes.getD "")
                     else t.description }))

/-- JavaScript `feedback || 'Customer rejected task completion'`. -/
def disputeDescription (feedback : Option String) : String :=
  if jsTruthy feedback then feedback.getD "" else "Customer rejected task completion"

/-- The confirm-complete route (`POST /api/tasks/confirm-complete`).
The customer either approves (task `completed`, the single authorized hold
captured, tasker aggregate stats credited, optional review inserted and the
average rating recomputed over the full review set) or rejects (task
`disputed`, an open `dispute_cases` row inserted, the hold untouched).
`stripeCaptureOk` is the gateway capture outcome; the handler ignores it
beyond logging. -/
def confirmComplete (db : DB) (taskId customerId : String) (approved : Bool)
    (feedback : Option String) (rating : Option Nat) (_stripeCaptureOk : Bool) :
    ApiResult × DB :=
  if taskId = "" ∨ customerId = "" then
    (.badRequest "Missing required fields: taskId, customerId, approved", db)
  else
    match selectSingle db.tasks
        (fun t => t.id == taskId && t.customer_id == customerId &&
          t.status == TaskStatus.pendingCustomerApproval) with
    | none => (.notFound "Task not found, not yours, or not pending approval", db)
    | some task =>
      let paymentAmount := jsOrRat task.agreed_price task.budget_min
      if approved then
        -- task row to completed
        let db1 := db.updateTasks (fun t => t.id == taskId)
          (fun t => { t with status := .completed })
        -- capture the single authorized hold and credit the tasker
        let db2 :=
          match selectSingle db1.task_payments
              (fun p => p.task_id == taskId && p.status == HoldStatus.authorized) with
          | none => db1
          | some _pr =>
            let dbc := db1.updatePayments
              (fun p => p.task_id == taskId && p.status == HoldStatus.authorized)
              (fun p => { p with
                status := .captured,
                release_reason := some "Customer approved task completion" })
            match selectSingle dbc.users (fun u => sqlEq (some u.id) task.tasker_id) with
            | none => dbc
            | some currentTasker =>
              dbc.updateUsers (fun u => sqlEq (some u.id) task.tasker_id)
                (fun u =>
                  { u with total_earnings :=
                             some (currentTasker.total_earnings.getD 0 + paymentAmount),
                           total_tasks_completed :=
                             some (currentTasker.total_tasks_completed.getD 0 + 1),
                           is_available := true })
        -- optional review plus full-set recomputation of the average rating
        let db3 :=
          match rating with
          | none => db2
          | some r =>
            if 1 ≤ r ∧ r ≤ 5 then
              let dbr := { db2 with task_reviews := db2.task_reviews ++
                [{ task_id := taskId, reviewer_id := customerId,
                   reviewee_id := task.tasker_id, rating := r,
                   review_text := feedback.getD "",
                   review_type := "customer_to_tasker" }] }
              let reviews : List Review := dbr.task_reviews.filter
                (fun rv => sqlEq rv.reviewee_id task.tasker_id &&
                  rv.review_type == "customer_to_tasker")
              if reviews.length > 0 then
                let avgRating : Rat :=
                  ((reviews.map (fun rv => (rv.rating : Rat))).sum) / (reviews.length : Rat)
                dbr.updateUsers (fun u => sqlEq (some u.id) task.tasker_id)
                  (fun u => { u with average_rating := some avgRating })
              else dbr
            else db2
        (.ok, db3)
      else
        -- task row to disputed and an open dispute case; payments untouched
        let db1 := db.updateTasks (fun t => t.id == taskId)
          (fun t => { t with status := .disputed })
        (.ok, { db1 with dispute_cases := db1.dispute_cases ++
          [{ task_id := taskId, complainant_id := customerId,
             respondent_id := task.tasker_id,
             dispute_reason := "task_not_completed",
             description := disputeDescription feedback,
             status := "open" }] })

/-- The cancel route (`POST /api/tasks/cancel`, src/unnamed/part_021):
authorizes the caller, rejects terminal statuses, sets the task to
`cancelled` (overwriting `description` with title, canceller and reason),
restores tasker availability when a tasker cancelled, and voids the
authorized hold only when the pre-cancel status was `assigned` or
`in_progress`. -/
def cancelTask (db : DB) (taskId userId reason cancelledBy : String) :
    ApiResult × DB :=
  if taskId = "" ∨ userId = "" ∨ reason = "" ∨ cancelledBy = "" then
    (.badRequest "Missing required fields: taskId, userId, reason, cancelledBy", db)
  else
    match selectSingle db.tasks (fun t => t.id == taskId) with
    | none => (.notFound "Task not found", db)
    | some task =>
      let isCustomer := task.customer_id == userId
      let isTasker := sqlEq (some userId) task.tasker_id
      if !isCustomer && !isTasker then
        (.forbidden "Unauthorized: You are not associated with this task", db)
      else if (cancelledBy == "customer" && !isCustomer) ||
              (cancelledBy == "tasker" && !isTasker) then
        (.badRequest "Mismatch between user and cancelledBy field", db)
      else if task.status == TaskStatus.completed then
        (.badRequest "Cannot cancel a completed task", db)
      else if task.status == TaskStatus.cancelled then
        (.badRequest "Task is already cancelled", db)
      else
        let db1 := db.updateTasks (fun t => t.id == taskId)
          (fun t =>
            { t with status := .cancelled,
                     description := task.title ++ "\n\nCancelled by: " ++
                       cancelledBy ++ "\nReason: " ++ reason })
        let db2 :=
          if cancelledBy == "tasker" && jsTruthy task.tasker_id then
            db1.updateUsers (fun u => sqlEq (some u.id) task.tasker_id)
              (fun u => { u with is_available := true })
          else db1
        let db3 :=
          if task.status == TaskStatus.inProgress ∨ task.status == TaskStatus.assigned then
            db2.updatePayments
              (fun p => p.task_id == taskId && p.status == HoldStatus.authorized)
              (fun p => { p with
                status := .voided,
                release_reason := some ("Task cancelled by " ++ cancelledBy ++
                  ": " ++ reason) })
          else db2
        (.ok, db3)

/-- A tasker who passes the accept route's validation gate in `db`:
nonempty id, found active by the lookup, and currently available. -/
def taskerOkay (db : DB) (uid : String) : Prop :=
  uid ≠ "" ∧ ∃ u, selectSingle db.users (fun v => v.id == uid && v.is_active) = some u ∧
    u.is_available = true

/-- Run a sequence of accept attempts (tasker id, gateway outcome, intent
id) against one task, threading the state; returns the list of responses in
order and the final state. -/
def runAccepts (db : DB) (taskId : String)
    (attempts : List (String × Bool × String)) : List ApiResult × DB :=
  match attempts with
  | [] => ([], db)
  | (uid, ok, pid) :: rest =>
    let r := acceptTask db taskId uid ok pid
    let rs := runAccepts r.2.1 taskId rest
    (r.1 :: rs.1, rs.2)

/-- The payment holds recorded for one task, oldest first. -/
def holdsFor (db : DB) (tid : String) : List PaymentHold :=
  db.task_payments.filter (fun p => p.task_id == tid)

/-- The most recent payment hold recorded for one task. -/
def mostRecentHold (db : DB) (tid : String) : Option PaymentHold :=
  (holdsFor db tid).getLast?

/-- Status/hold correlation for one task row given its holds. -/
def statusHoldOk (t : Task) (hs : List PaymentHold) : Prop :=
  match t.status with
  | .posted => hs = [] ∧ t.tasker_id = none
  | .assigned => ∃ h, hs = [h] ∧ h.status = .authorized
  | .inProgress => ∃ h, hs = [h] ∧ h.status = .authorized
  | .pendingCustomerApproval => ∃ h, hs = [h] ∧ h.status = .authorized
  | .completed => ∃ h, hs = [h] ∧ h.status = .captured
  | .disputed => ∃ h, hs = [h] ∧ h.status = .authorized
  | .cancelled => hs = [] ∨ ∃ h, hs = [h] ∧ (h.status = .voided ∨ h.status = .authorized)

/-- Inductive invariant of the lifecycle transition system: task ids are
distinct (primary key), every hold references an existing task (foreign
key), and every task's holds correlate with its status. -/
def Inv (db : DB) : Prop :=
  db.tasks.Pairwise (fun a b => a.id ≠ b.id) ∧
  (∀ p ∈ db.task_payments, ∃ t ∈ db.tasks, t.id = p.task_id) ∧
  (∀ t ∈ db.tasks, statusHoldOk t (holdsFor db t.id))

/-- One lifecycle request against the store: each constructor applies one
route handler with arbitrary payload (plus arbitrary churn of the `users`
table by out-of-scope profile routes).  `create` carries the database's
primary-key guarantee that the generated row id is fresh. -/
inductive Step : DB → DB → Prop
  | create (db : DB) (cid title descr addr : String) (price : Rat) (newId : String)
      (hfresh : ∀ t ∈ db.tasks, t.id ≠ newId) :
      Step db (createTask db cid title descr addr price newId).2
  | accept (db : DB) (tid uid pid : String) (ok : Bool) :
      Step db (acceptTask db tid uid ok pid).2.1
  | arrived (db : DB) (tid uid : String) :
      Step db (arrivedTask db tid uid).2
  | start (db : DB) (tid uid : String) :
      Step db (startTask db tid uid).2
  | complete (db : DB) (tid uid : String) (notes : Option String) :
      Step db (completeTask db tid uid notes).2
  | confirm (db : DB) (tid cid : String) (approved : Bool) (fb : Option String)
      (rating : Option Nat) (cok : Bool) :
      Step db (confirmComplete db tid cid approved fb rating cok).2
  | cancel (db : DB) (tid uid reason cby : String) :
      Step db (cancelTask db tid uid reason cby).2
  | usersChange (db : DB) (us : List User) :
      Step db { db with users := us }

/-- States reachable from an empty marketplace (any initial user base) by
lifecycle requests. -/
inductive Reachable : DB → Prop
  | init (us : List User) :
      Reachable { tasks := [], users := us, task_payments := [],
                  task_reviews := [], dispute_cases := [] }
  | step {db db' : DB} : Reachable db → Step db db' → Reachable db'

/-- The per-step form of the cancel/void correlation: during one step, the
task row for a given id moves from an active status to `cancelled` exactly
when its most recent hold becomes `voided` during that step. -/
def CancelVoidIff (db db' : DB) (t t' : Task) : Prop :=
  ((t.status = TaskStatus.assigned ∨ t.status = TaskStatus.inProgress) ∧
      t'.status = TaskStatus.cancelled) ↔
    (¬ (∃ h, mostRecentHold db t.id = some h ∧ h.status = HoldStatus.voided) ∧
      ∃ h, mostRecentHold db' t.id = some h ∧ h.status = HoldStatus.voided)

/-! Concrete fixture states, built by running the route functions. -/

/-- Fixture: the posting customer. -/
def custC1 : User :=
  { id := "c1", is_active := true, is_available := true,
    total_earnings := none, total_tasks_completed := none, average_rating := none }

/-- Fixture: an available tasker with prior earnings and rating. -/
def taskerW1 : User :=
  { id := "w1", is_active := true, is_available := true,
    total_earnings := some 10, total_tasks_completed := some 2, average_rating := some 5 }

/-- Fixture: a second available tasker. -/
def taskerW2 : User :=
  { id := "w2", is_active := true, is_available := true,
    total_earnings := none, total_tasks_completed := none, average_rating := none }

/-- Fixture: initial state with three users and no tasks. -/
def dbInit : DB :=
  { tasks := [], users := [custC1, taskerW1, taskerW2],
    task_payments := [], task_reviews := [], dispute_cases := [] }

/-- Fixture: one freshly posted task `t1` at price 75. -/
def dbPosted : DB := (createTask dbInit "c1" "Fix sink" "leaky faucet" "12 Road" 75 "t1").2

/-- Fixture: a second posted task `t2` alongside `t1`. -/
def dbTwoPosted : DB := (createTask dbPosted "c1" "Walk dog" "poodle" "12 Road" 30 "t2").2

/-- Fixture: `t1` accepted by tasker `w1` (gateway succeeded). -/
def dbAssigned : DB := (acceptTask dbPosted "t1" "w1" true "pi_1").2.1

/-- Fixture: `t1` started. -/
def dbStarted : DB := (startTask dbAssigned "t1" "w1").2

/-- Fixture: `t1` marked complete by the tasker, awaiting the customer. -/
def dbPendingA : DB := (completeTask dbStarted "t1" "w1" (some "all done")).2

/-- Fixture: `dbPendingA` with two earlier reviews (ratings 5 and 4) for `w1`. -/
def dbPendingR : DB :=
  { dbPendingA with task_reviews :=
      [{ task_id := "t0", reviewer_id := "cX", reviewee_id := some "w1", rating := 5,
         review_text := "", review_type := "customer_to_tasker" },
       { task_id := "t0", reviewer_id := "cY", reviewee_id := some "w1", rating := 4,
         review_text := "", review_type := "customer_to_tasker" }] }

/-- Fixture: `t1` approved by the customer with a 3-star rating. -/
def dbCompleted : DB := (confirmComplete dbPendingA "t1" "c1" true none (some 3) true).2

/-- Fixture: the `t1` row as freshly posted. -/
def tPostedT1 : Task :=
  { id := "t1", customer_id := "c1", tasker_id := none, title := "Fix sink",
    description := "leaky faucet", task_address := "12 Road",
    budget_min := 75, agreed_price := none, status := .posted }

/-- Fixture: the `t2` row as freshly posted. -/
def tPostedT2 : Task :=
  { id := "t2", customer_id := "c1", tasker_id := none, title := "Walk dog",
    description := "poodle", task_address := "12 Road",
    budget_min := 30, agreed_price := none, status := .posted }

/-- Fixture: the `t1` row after acceptance by w1. -/
def tAssignedT1 : Task :=
  { id := "t1", customer_id := "c1", tasker_id := some "w1", title := "Fix sink",
    description := "leaky faucet", task_address := "12 Road",
    budget_min := 75, agreed_price := none, status := .assigned }

/-- Fixture: the `t1` row after work started. -/
def tStartedT1 : Task :=
  { id := "t1", customer_id := "c1", tasker_id := some "w1", title := "Fix sink",
    description := "leaky faucet", task_address := "12 Road",
    budget_min := 75, agreed_price := none, status := .inProgress }

/-- Fixture: the authorized hold created when w1 accepted `t1`. -/
def holdT1 : PaymentHold :=
  { task_id := "t1", amount_held := 75, status := .authorized,
    stripe_payment_intent_id := some "pi_1", release_reason := none }

/-- Fixture: the `t1` row while awaiting customer approval. -/
def tPendingT1 : Task :=
  { id := "t1", customer_id := "c1", tasker_id := some "w1", title := "Fix sink",
    description := "Fix sink\n\nCompletion Notes: all done", task_address := "12 Road",
    budget_min := 75, agreed_price := none, status := .pendingCustomerApproval }

/-! Generic lemmas about `selectSingle` and `updateRows`. -/

section StoreLemmas

variable {α : Type}

theorem selectSingle_eq_some_iff {l : List α} {p : α → Bool} {a : α} :
    selectSingle l p = some a ↔ l.filter p = [a] := by
  unfold selectSingle
  cases h : l.filter p with
  | nil => simp [h]
  | cons x xs =>
    cases xs with
    | nil => simp
    | cons y ys => simp

theorem selectSingle_eq_none_of_nil {l : List α} {p : α → Bool}
    (h : l.filter p = []) : selectSingle l p = none := by
  unfold selectSingle
  rw [h]

theorem filter_single_mem {p : α → Bool} {l : List α} {a : α}
    (h : l.filter p = [a]) : a ∈ l ∧ p a = true := by
  have ha : a ∈ l.filter p := by rw [h]; exact List.mem_singleton_self a
  rw [List.mem_filter] at ha
  exact ha

theorem filter_nil_of_imp {p q : α → Bool} {l : List α}
    (h : l.filter p = []) (himp : ∀ x, q x = true → p x = true) :
    l.filter q = [] := by
  rw [List.filter_eq_nil_iff] at h ⊢
  intro a ha hq
  exact h a ha (himp a hq)

theorem filter_sub_of_single {p q : α → Bool} {l : List α} {a : α}
    (h : l.filter p = [a]) (himp : ∀ x, q x = true → p x = true) :
    l.filter q = if q a then [a] else [] := by
  induction l with
  | nil => simp at h
  | cons x xs ih =>
    by_cases hp : p x
    · rw [List.filter_cons_of_pos hp] at h
      obtain ⟨rfl, hnil⟩ := List.cons_eq_cons.mp h
      have hqnil : xs.filter q = [] := filter_nil_of_imp hnil himp
      cases hqx : q x with
      | true => simp [List.filter_cons, hqx, hqnil]
      | false => simp [List.filter_cons, hqx, hqnil]
    · rw [List.filter_cons_of_neg hp] at h
      have hqx : q x = false := by
        cases hqx' : q x
        · rfl
        · exact absurd (himp x hqx') hp
      rw [List.filter_cons_of_neg (by simp [hqx])]
      exact ih h

theorem updateRows_nil {p : α → Bool} {f : α → α} :
    updateRows ([] : List α) p f = [] := rfl

theorem updateRows_cons {x : α} {xs : List α} {p : α → Bool} {f : α → α} :
    updateRows (x :: xs) p f = (if p x then f x else x) :: updateRows xs p f := rfl

theorem updateRows_of_filter_nil {l : List α} {p : α → Bool} {f : α → α}
    (h : l.filter p = []) : updateRows l p f = l := by
  rw [List.filter_eq_nil_iff] at h
  induction l with
  | nil => rfl
  | cons x xs ih =>
    rw [updateRows_cons]
    rw [if_neg (h x (List.mem_cons_self x xs))]
    rw [ih (fun a ha => h a (List.mem_cons_of_mem x ha))]

theorem mem_updateRows {l : List α} {p : α → Bool} {f : α → α} {y : α} :
    y ∈ updateRows l p f ↔ ∃ x, x ∈ l ∧ y = if p x then f x else x := by
  unfold updateRows
  rw [List.mem_map]
  constructor
  · rintro ⟨x, hx, h⟩
    exact ⟨x, hx, h.symm⟩
  · rintro ⟨x, hx, h⟩
    exact ⟨x, hx, h.symm⟩

theorem filter_updateRows_single {l : List α} {key upd : α → Bool} {f : α → α} {t : α}
    (h : l.filter key = [t])
    (hsub : ∀ x, upd x = true → key x = true)
    (hkeep : ∀ x, key (f x) = key x) :
    (updateRows l upd f).filter key = [if upd t then f t else t] := by
  induction l with
  | nil => simp at h
  | cons x xs ih =>
    by_cases hk : key x
    · rw [List.filter_cons_of_pos hk] at h
      obtain ⟨rfl, hnil⟩ := List.cons_eq_cons.mp h
      have htl : updateRows xs upd f = xs :=
        updateRows_of_filter_nil (filter_nil_of_imp hnil hsub)
      rw [updateRows_cons, htl]
      by_cases hu : upd x
      · rw [if_pos hu,
          List.filter_cons_of_pos (show key (f x) = true by rw [hkeep]; exact hk), hnil]
      · rw [if_neg hu, List.filter_cons_of_pos hk, hnil]
    · rw [List.filter_cons_of_neg hk] at h
      have hu : ¬ upd x = true := fun hx => hk (hsub x hx)
      rw [updateRows_cons, if_neg hu, List.filter_cons_of_neg hk]
      exact ih h

theorem filter_updateRows_of_disjoint {l : List α} {q p : α → Bool} {f : α → α}
    (hd : ∀ x, p x = true → q x = false)
    (hf : ∀ x, q (f x) = q x) :
    (updateRows l p f).filter q = l.filter q := by
  induction l with
  | nil => rfl
  | cons x xs ih =>
    rw [updateRows_cons]
    by_cases hpx : p x
    · rw [if_pos hpx]
      have hqx : q x = false := hd x hpx
      rw [List.filter_cons_of_neg (by simp [hf, hqx]),
        List.filter_cons_of_neg (by simp [hqx])]
      exact ih
    · rw [if_neg hpx]
      by_cases hqx : q x
      · rw [List.filter_cons_of_pos hqx, List.filter_cons_of_pos hqx, ih]
      · rw [List.filter_cons_of_neg hqx, List.filter_cons_of_neg hqx]
        exact ih

end StoreLemmas

/-! Lemmas specific to rows keyed by an id column. -/

theorem pairwise_ids_updateRows {l : List Task} {p : Task → Bool} {f : Task → Task}
    (hf : ∀ x, (f x).id = x.id) (h : l.Pairwise (fun a b => a.id ≠ b.id)) :
    (updateRows l p f).Pairwise (fun a b => a.id ≠ b.id) := by
  unfold updateRows
  rw [List.pairwise_map]
  refine h.imp ?_
  intro a b hab
  by_cases hpa : p a <;> by_cases hpb : p b <;> simp [hpa, hpb, hf] <;> exact hab

theorem mem_unique_of_ids {l : List Task}
    (hp : l.Pairwise (fun a b => a.id ≠ b.id)) {x t : Task}
    (hx : x ∈ l) (ht : t ∈ l) (hid : x.id = t.id) : x = t := by
  induction l with
  | nil => cases hx
  | cons a as ih =>
    rw [List.pairwise_cons] at hp
    rcases List.mem_cons.mp hx with rfl | hx'
    · rcases List.mem_cons.mp ht with rfl | ht'
      · rfl
      · exact absurd hid (hp.1 t ht')
    · rcases List.mem_cons.mp ht with rfl | ht'
      · exact absurd hid.symm (hp.1 x hx')
      · exact ih hp.2 hx' ht'

theorem filter_key_of_mem {l : List Task} {tid : String} {t : Task}
    (hp : l.Pairwise (fun a b => a.id ≠ b.id)) (hm : t ∈ l) (ht : t.id = tid) :
    l.filter (fun x => x.id == tid) = [t] := by
  induction l with
  | nil => cases hm
  | cons a as ih =>
    rw [List.pairwise_cons] at hp
    rcases List.mem_cons.mp hm with rfl | hm'
    · rw [List.filter_cons_of_pos (by simp [ht])]
      have hnil : as.filter (fun x => x.id == tid) = [] := by
        rw [List.filter_eq_nil_iff]
        intro b hb hbid
        simp at hbid
        exact (hp.1 b hb) (by rw [ht, ← hbid])
      rw [hnil]
    · have hne : ¬ (a.id == tid) = true := by
        simp only [beq_iff_eq]
        intro haid
        exact (hp.1 t hm') (by rw [haid, ht])
      rw [List.filter_cons, if_neg hne]
      exact ih hp.2 hm'

theorem updateRows_track {l : List Task}
    (hp : l.Pairwise (fun a b => a.id ≠ b.id))
    {p : Task → Bool} {f : Task → Task} (hf : ∀ x, (f x).id = x.id)
    {t t' : Task} (ht : t ∈ l) (ht' : t' ∈ updateRows l p f)
    (hid : t'.id = t.id) : t' = if p t then f t else t := by
  rcases mem_updateRows.mp ht' with ⟨x, hx, rfl⟩
  have hxid : x.id = t.id := by
    by_cases hpx : p x
    · rw [if_pos hpx, hf] at hid
      exact hid
    · rw [if_neg hpx] at hid
      exact hid
  have hxt : x = t := mem_unique_of_ids hp hx ht hxid
  subst hxt
  rfl

/-! Branch characterizations of the accept route. -/

theorem acceptTask_users (db : DB) (tid uid : String) (ok : Bool) (pid : String) :
    (acceptTask db tid uid ok pid).2.1.users = db.users := by
  unfold acceptTask
  split
  · rfl
  · split
    · rfl
    · split
      · rfl
      · split
        · rfl
        · split <;> rfl

theorem acceptTask_success
    (db : DB) {tid uid : String} (pid : String) (ok : Bool) {u : User} {t : Task}
    (htid : tid ≠ "") (huid : uid ≠ "")
    (hu : selectSingle db.users (fun v => v.id == uid && v.is_active) = some u)
    (hav : u.is_available = true)
    (ht : db.tasks.filter (claimPred tid) = [t]) :
    acceptTask db tid uid ok pid =
      (.ok,
       { db with
           tasks := updateRows db.tasks (claimPred tid) (claimPatch uid),
           task_payments := db.task_payments ++
             [{ task_id := tid, amount_held := (claimPatch uid t).budget_min,
                status := .authorized,
                stripe_payment_intent_id := if ok then some pid else none,
                release_reason := none }] },
       if ok then [.claimSucceeded, .stripeAuthorize, .holdInserted]
       else [.claimSucceeded, .stripeAuthorize, .stripeFailureLogged, .holdInserted]) := by
  have hsel : selectSingle db.tasks (claimPred tid) = some t :=
    selectSingle_eq_some_iff.mpr ht
  unfold acceptTask
  rw [if_neg (by push_neg; exact ⟨htid, huid⟩)]
  rw [hu]
  simp only [hav, Bool.not_true, DB.updateTasks]
  rw [hsel]
  cases ok <;> simp

theorem acceptTask_conflict
    (db : DB) {tid uid : String} (pid : String) (ok : Bool) {u : User}
    (htid : tid ≠ "") (huid : uid ≠ "")
    (hu : selectSingle db.users (fun v => v.id == uid && v.is_active) = some u)
    (hav : u.is_available = true)
    (ht : db.tasks.filter (claimPred tid) = []) :
    acceptTask db tid uid ok pid =
      (.conflict "Task is no longer available or already assigned", db, []) := by
  have hsel := selectSingle_eq_none_of_nil ht
  unfold acceptTask
  rw [if_neg (by push_neg; exact ⟨htid, huid⟩)]
  rw [hu]
  simp only [hav, Bool.not_true, DB.updateTasks]
  rw [hsel]
  simp [updateRows_of_filter_nil ht]

theorem claimPred_imp_key {tid : String} (x : Task) (h : claimPred tid x = true) :
    (x.id == tid) = true := by
  unfold claimPred at h
  rw [Bool.and_eq_true, Bool.and_eq_true] at h
  exact h.1.1

theorem claimPred_of_key {tid : String} {t : Task} (hk : (t.id == tid) = true) :
    claimPred tid t = (decide (t.status = .posted ∧ t.tasker_id = none)) := by
  unfold claimPred
  rw [hk]
  by_cases hs : t.status = .posted
  · by_cases htk : t.tasker_id = none
    · simp [hs, htk]
    · simp [hs, htk]
  · simp [hs]

theorem taskerOkay_of_users_eq {db db' : DB} (h : db'.users = db.users)
    {uid : String} (hok : taskerOkay db uid) : taskerOkay db' uid := by
  unfold taskerOkay at hok ⊢
  rw [h]
  exact hok

theorem runAccepts_conflicts
    (db : DB) {taskId : String} {t' : Task} (attempts : List (String × Bool × String))
    (htid : taskId ≠ "")
    (htask : db.tasks.filter (fun x => x.id == taskId) = [t'])
    (hnot : ¬(t'.status = .posted ∧ t'.tasker_id = none))
    (hok : ∀ a ∈ attempts, taskerOkay db a.1) :
    (runAccepts db taskId attempts).1 =
      attempts.map (fun _ => .conflict "Task is no longer available or already assigned") ∧
    (runAccepts db taskId attempts).2 = db := by
  have hkey : (t'.id == taskId) = true := by
    have := filter_single_mem htask
    exact this.2
  have hclaim : db.tasks.filter (claimPred taskId) = [] := by
    have := filter_sub_of_single htask (fun x hx => claimPred_imp_key x hx)
    rw [claimPred_of_key hkey] at this
    rw [this, if_neg (by simp [hnot])]
  induction attempts with
  | nil => exact ⟨rfl, rfl⟩
  | cons a rest ih =>
    obtain ⟨uid, ok, pid⟩ := a
    obtain ⟨huid, u, hu, hav⟩ := hok _ (List.mem_cons_self _ _)
    have hconf := acceptTask_conflict db pid ok htid huid hu hav hclaim
    unfold runAccepts
    rw [hconf]
    have := ih (fun a ha => hok a (List.mem_cons_of_mem _ ha))
    exact ⟨by rw [List.map_cons]; exact congrArg _ this.1, this.2⟩

/-- Claim C1: an accept call by an active, available tasker on an existing
task succeeds exactly when the task is still posted and unclaimed, claiming
it (tasker set, status assigned) through the single conditional update;
otherwise it returns the already-taken conflict error with HTTP status 409
and leaves the state unchanged.  Hence over any sequence of such accept
attempts on one task starting from a posted unclaimed state, exactly the
first succeeds, every later attempt receives the conflict response, and the
task ends up held by the first tasker alone. -/
theorem accept_first_come_first_served
    (db : DB) (taskId : String) (t : Task)
    (htid : taskId ≠ "")
    (htask : db.tasks.filter (fun x => x.id == taskId) = [t]) :
    (∀ taskerId stripeOk pid, taskerOkay db taskerId →
      if t.status = .posted ∧ t.tasker_id = none then
        (acceptTask db taskId taskerId stripeOk pid).1 = .ok ∧
        (acceptTask db taskId taskerId stripeOk pid).2.1.tasks.filter
            (fun x => x.id == taskId) = [claimPatch taskerId t]
      else
        (acceptTask db taskId taskerId stripeOk pid).1 =
          .conflict "Task is no longer available or already assigned" ∧
        (acceptTask db taskId taskerId stripeOk pid).1.httpStatus = 409 ∧
        (acceptTask db taskId taskerId stripeOk pid).2.1 = db) ∧
    (∀ uid ok pid rest,
      t.status = .posted → t.tasker_id = none →
      (∀ a ∈ (uid, ok, pid) :: rest, taskerOkay db a.1) →
      (runAccepts db taskId ((uid, ok, pid) :: rest)).1 =
        .ok :: rest.map
          (fun _ => ApiResult.conflict "Task is no longer available or already assigned") ∧
      (runAccepts db taskId ((uid, ok, pid) :: rest)).2.tasks.filter
        (fun x => x.id == taskId) = [claimPatch uid t]) := by
  have hkey : (t.id == taskId) = true := (filter_single_mem htask).2
  have hsplit := filter_sub_of_single htask (fun x hx => claimPred_imp_key x hx)
  rw [claimPred_of_key hkey] at hsplit
  constructor
  · rintro taskerId stripeOk pid ⟨huid, u, hu, hav⟩
    by_cases hcond : t.status = .posted ∧ t.tasker_id = none
    · rw [if_pos hcond]
      have hclaim : db.tasks.filter (claimPred taskId) = [t] := by
        rw [hsplit, if_pos (by simp [hcond])]
      have hsucc := acceptTask_success db pid stripeOk htid huid hu hav hclaim
      rw [hsucc]
      refine ⟨rfl, ?_⟩
      show (updateRows db.tasks (claimPred taskId) (claimPatch taskerId)).filter _ = _
      rw [filter_updateRows_single (f := claimPatch taskerId) htask
        (fun x hx => claimPred_imp_key x hx) (fun x => rfl)]
      rw [claimPred_of_key hkey]
      rw [if_pos (by simp [hcond])]
    · rw [if_neg hcond]
      have hclaim : db.tasks.filter (claimPred taskId) = [] := by
        rw [hsplit, if_neg (by simp [hcond])]
      have hconf := acceptTask_conflict db pid stripeOk htid huid hu hav hclaim
      rw [hconf]
      exact ⟨rfl, rfl, rfl⟩
  · intro uid ok pid rest hst htk hok
    obtain ⟨huid, u, hu, hav⟩ := hok _ (List.mem_cons_self _ _)
    have hclaim : db.tasks.filter (claimPred taskId) = [t] := by
      rw [hsplit, if_pos (by simp [hst, htk])]
    have hsucc := acceptTask_success db pid ok htid huid hu hav hclaim
    have h1 : (acceptTask db taskId uid ok pid).2.1.tasks.filter
        (fun x => x.id == taskId) = [claimPatch uid t] := by
      rw [hsucc]
      show (updateRows db.tasks (claimPred taskId) (claimPatch uid)).filter _ = _
      rw [filter_updateRows_single (f := claimPatch uid) htask
        (fun x hx => claimPred_imp_key x hx) (fun x => rfl)]
      rw [claimPred_of_key hkey]
      rw [if_pos (by simp [hst, htk])]
    have h2 : (acceptTask db taskId uid ok pid).2.1.users = db.users :=
      acceptTask_users db taskId uid ok pid
    have hrest := runAccepts_conflicts (acceptTask db taskId uid ok pid).2.1
      rest htid h1
      (by simp [claimPatch])
      (fun a ha => taskerOkay_of_users_eq h2 (hok a (List.mem_cons_of_mem _ ha)))
    constructor
    · show (acceptTask db taskId uid ok pid).1 ::
        (runAccepts (acceptTask db taskId uid ok pid).2.1 taskId rest).1 = _
      rw [hrest.1, hsucc]
    · show (runAccepts (acceptTask db taskId uid ok pid).2.1 taskId rest).2.tasks.filter _ = _
      rw [hrest.2]
      exact h1

/-- Witness for C1: on the posted fixture, tasker w1's accept succeeds and
a subsequent attempt by w2 receives the conflict response. -/
theorem accept_first_come_first_served_witness :
    (acceptTask dbPosted "t1" "w1" true "pi_1").1 = .ok ∧
    (runAccepts dbPosted "t1" [("w1", true, "pi_1"), ("w2", true, "pi_2")]).1 =
      [ApiResult.ok, .conflict "Task is no longer available or already assigned"] := by
  have main := accept_first_come_first_served dbPosted "t1" tPostedT1
    (by decide) (by decide)
  constructor
  · have h := main.1 "w1" true "pi_1" ⟨by decide, taskerW1, by decide, by decide⟩
    rw [if_pos (by decide : tPostedT1.status = .posted ∧ tPostedT1.tasker_id = none)] at h
    exact h.1
  · have h := main.2 "w1" true "pi_1" [("w2", true, "pi_2")] (by decide) (by decide)
      (by
        intro a ha
        rcases List.mem_cons.mp ha with rfl | ha
        · exact ⟨by decide, taskerW1, by decide, by decide⟩
        · rcases List.mem_cons.mp ha with rfl | ha
          · exact ⟨by decide, taskerW2, by decide, by decide⟩
          · cases ha)
    exact h.1

/-- Claim C2: inside every accept call the gateway authorization happens
strictly after the conditional claim update has succeeded (its trace index
is larger), and an accept call that ends in the conflict response performs
no authorization and leaves the payments table unchanged. -/
theorem accept_authorizes_only_after_claim
    (db : DB) (tid uid : String) (ok : Bool) (pid : String) :
    (AcceptEv.stripeAuthorize ∈ (acceptTask db tid uid ok pid).2.2 →
      AcceptEv.claimSucceeded ∈ (acceptTask db tid uid ok pid).2.2 ∧
      (acceptTask db tid uid ok pid).2.2.indexOf AcceptEv.claimSucceeded <
        (acceptTask db tid uid ok pid).2.2.indexOf AcceptEv.stripeAuthorize) ∧
    ((acceptTask db tid uid ok pid).1.isConflict = true →
      AcceptEv.stripeAuthorize ∉ (acceptTask db tid uid ok pid).2.2 ∧
      (acceptTask db tid uid ok pid).2.1.task_payments = db.task_payments) := by
  unfold acceptTask
  split
  · exact ⟨fun h => absurd h (by simp), fun h => by simp [ApiResult.isConflict] at h⟩
  · split
    · exact ⟨fun h => absurd h (by simp), fun h => by simp [ApiResult.isConflict] at h⟩
    · split
      · exact ⟨fun h => absurd h (by simp), fun h => by simp [ApiResult.isConflict] at h⟩
      · split
        · exact ⟨fun h => absurd h (by simp), fun _ => ⟨by simp, rfl⟩⟩
        · split
          · refine ⟨fun _ => ?_, fun h => by simp [ApiResult.isConflict] at h⟩
            show AcceptEv.claimSucceeded ∈
                [AcceptEv.claimSucceeded, .stripeAuthorize, .holdInserted] ∧
              List.indexOf AcceptEv.claimSucceeded
                  [AcceptEv.claimSucceeded, .stripeAuthorize, .holdInserted] <
                List.indexOf AcceptEv.stripeAuthorize
                  [AcceptEv.claimSucceeded, .stripeAuthorize, .holdInserted]
            decide
          · refine ⟨fun _ => ?_, fun h => by simp [ApiResult.isConflict] at h⟩
            show AcceptEv.claimSucceeded ∈
                [AcceptEv.claimSucceeded, .stripeAuthorize, .stripeFailureLogged,
                  .holdInserted] ∧
              List.indexOf AcceptEv.claimSucceeded
                  [AcceptEv.claimSucceeded, .stripeAuthorize, .stripeFailureLogged,
                    .holdInserted] <
                List.indexOf AcceptEv.stripeAuthorize
                  [AcceptEv.claimSucceeded, .stripeAuthorize, .stripeFailureLogged,
                    .holdInserted]
            decide

/-- Witness for C2: a successful accept authorizes after the claim, and a
conflicting accept on the already-assigned fixture creates no hold. -/
theorem accept_authorizes_only_after_claim_witness :
    ((acceptTask dbPosted "t1" "w1" true "pi_1").2.2.indexOf AcceptEv.claimSucceeded <
      (acceptTask dbPosted "t1" "w1" true "pi_1").2.2.indexOf AcceptEv.stripeAuthorize) ∧
    AcceptEv.stripeAuthorize ∉ (acceptTask dbAssigned "t1" "w2" true "pi_9").2.2 ∧
    (acceptTask dbAssigned "t1" "w2" true "pi_9").2.1.task_payments =
      dbAssigned.task_payments := by
  refine ⟨((accept_authorizes_only_after_claim dbPosted "t1" "w1" true "pi_1").1
      (by decide)).2, ?_, ?_⟩
  · exact ((accept_authorizes_only_after_claim dbAssigned "t1" "w2" true "pi_9").2
      (by decide)).1
  · exact ((accept_authorizes_only_after_claim dbAssigned "t1" "w2" true "pi_9").2
      (by decide)).2

/-- Claim C3: when the gateway authorization fails after the claim update
succeeded, the accept call still returns success, the task stays assigned
to the claiming tasker (the claim is not rolled back), and the failure is
only logged. -/
theorem accept_gateway_failure_keeps_claim
    (db : DB) (tid uid pid : String) (u : User) (t : Task)
    (htid : tid ≠ "") (huid : uid ≠ "")
    (hu : selectSingle db.users (fun v => v.id == uid && v.is_active) = some u)
    (hav : u.is_available = true)
    (htask : db.tasks.filter (fun x => x.id == tid) = [t])
    (hst : t.status = .posted) (htk : t.tasker_id = none) :
    (acceptTask db tid uid false pid).1 = .ok ∧
    (acceptTask db tid uid false pid).2.1.tasks.filter (fun x => x.id == tid) =
      [claimPatch uid t] ∧
    (claimPatch uid t).status = .assigned ∧
    (claimPatch uid t).tasker_id = some uid ∧
    AcceptEv.stripeFailureLogged ∈ (acceptTask db tid uid false pid).2.2 := by
  have hkey : (t.id == tid) = true := (filter_single_mem htask).2
  have hsplit := filter_sub_of_single htask (fun x hx => claimPred_imp_key x hx)
  rw [claimPred_of_key hkey] at hsplit
  have hclaim : db.tasks.filter (claimPred tid) = [t] := by
    rw [hsplit, if_pos (by simp [hst, htk])]
  have hsucc := acceptTask_success db pid false htid huid hu hav hclaim
  refine ⟨by rw [hsucc], ?_, rfl, rfl, ?_⟩
  · rw [hsucc]
    show (updateRows db.tasks (claimPred tid) (claimPatch uid)).filter _ = _
    rw [filter_updateRows_single (f := claimPatch uid) htask
      (fun x hx => claimPred_imp_key x hx) (fun x => rfl)]
    rw [claimPred_of_key hkey]
    rw [if_pos (by simp [hst, htk])]
  · rw [hsucc]
    show AcceptEv.stripeFailureLogged ∈
      [AcceptEv.claimSucceeded, .stripeAuthorize, .stripeFailureLogged, .holdInserted]
    decide

/-- Witness for C3: gateway failure on the posted fixture still yields a
success response and a logged failure. -/
theorem accept_gateway_failure_keeps_claim_witness :
    (acceptTask dbPosted "t1" "w1" false "pi_1").1 = .ok ∧
    AcceptEv.stripeFailureLogged ∈ (acceptTask dbPosted "t1" "w1" false "pi_1").2.2 := by
  have h := accept_gateway_failure_keeps_claim dbPosted "t1" "w1" "pi_1" taskerW1
    tPostedT1 (by decide) (by decide) (by decide) (by decide) (by decide)
    (by decide) (by decide)
  exact ⟨h.1, h.2.2.2.2⟩

/-- Claim C9: accept never writes the users table — in particular the
tasker's availability flag — so after one successful accept the same
tasker can immediately accept another posted task. -/
theorem accept_leaves_users_unchanged
    (db : DB) (tid uid : String) (ok : Bool) (pid : String) :
    (acceptTask db tid uid ok pid).2.1.users = db.users ∧
    (∀ (tid2 : String) (ok2 : Bool) (pid2 : String) (t t2 : Task),
      tid ≠ "" → tid2 ≠ "" → tid ≠ tid2 → taskerOkay db uid →
      db.tasks.filter (fun x => x.id == tid) = [t] →
      t.status = .posted → t.tasker_id = none →
      db.tasks.filter (fun x => x.id == tid2) = [t2] →
      t2.status = .posted → t2.tasker_id = none →
      (acceptTask db tid uid ok pid).1 = .ok ∧
      (acceptTask (acceptTask db tid uid ok pid).2.1 tid2 uid ok2 pid2).1 = .ok) := by
  refine ⟨acceptTask_users db tid uid ok pid, ?_⟩
  rintro tid2 ok2 pid2 t t2 htid htid2 hne ⟨huid, u, hu, hav⟩ htask hst htk htask2 hst2 htk2
  have hkey : (t.id == tid) = true := (filter_single_mem htask).2
  have hsplit := filter_sub_of_single htask (fun x hx => claimPred_imp_key x hx)
  rw [claimPred_of_key hkey] at hsplit
  have hclaim : db.tasks.filter (claimPred tid) = [t] := by
    rw [hsplit, if_pos (by simp [hst, htk])]
  have hsucc := acceptTask_success db pid ok htid huid hu hav hclaim
  have hdb1u : (acceptTask db tid uid ok pid).2.1.users = db.users :=
    acceptTask_users db tid uid ok pid
  have htask2' : (acceptTask db tid uid ok pid).2.1.tasks.filter
      (fun x => x.id == tid2) = [t2] := by
    have hdisj : ∀ x, claimPred tid x = true → (x.id == tid2) = false := by
      intro x hx
      have hid : (x.id == tid) = true := claimPred_imp_key x hx
      simp only [beq_iff_eq] at hid
      rw [beq_eq_false_iff_ne, hid]
      exact fun hcontra => hne hcontra
    rw [hsucc]
    show (updateRows db.tasks (claimPred tid) (claimPatch uid)).filter _ = _
    rw [filter_updateRows_of_disjoint (f := claimPatch uid) hdisj (fun x => rfl)]
    exact htask2
  obtain ⟨huid', u', hu', hav'⟩ :=
    taskerOkay_of_users_eq hdb1u (⟨huid, u, hu, hav⟩ : taskerOkay db uid)
  have hkey2 : (t2.id == tid2) = true := (filter_single_mem htask2').2
  have hsplit2 := filter_sub_of_single htask2' (fun x hx => claimPred_imp_key x hx)
  rw [claimPred_of_key hkey2] at hsplit2
  have hclaim2 : (acceptTask db tid uid ok pid).2.1.tasks.filter (claimPred tid2) = [t2] := by
    rw [hsplit2, if_pos (by simp [hst2, htk2])]
  have hsucc2 := acceptTask_success (acceptTask db tid uid ok pid).2.1 pid2 ok2
    htid2 huid' hu' hav' hclaim2
  exact ⟨by rw [hsucc], by rw [hsucc2]⟩

/-- Witness for C9: on the two-task fixture, tasker w1 accepts both posted
tasks back to back and the users table is untouched. -/
theorem accept_leaves_users_unchanged_witness :
    (acceptTask dbTwoPosted "t1" "w1" true "pi_1").2.1.users = dbTwoPosted.users ∧
    (acceptTask dbTwoPosted "t1" "w1" true "pi_1").1 = .ok ∧
    (acceptTask (acceptTask dbTwoPosted "t1" "w1" true "pi_1").2.1
      "t2" "w1" true "pi_2").1 = .ok := by
  have h := accept_leaves_users_unchanged dbTwoPosted "t1" "w1" true "pi_1"
  have h2 := h.2 "t2" true "pi_2" tPostedT1 tPostedT2
    (by decide) (by decide) (by decide)
    ⟨by decide, taskerW1, by decide, by decide⟩
    (by decide) (by decide) (by decide) (by decide) (by decide) (by decide)
  exact ⟨h.1, h2.1, h2.2⟩


/-- Success characterization of the complete route. -/
theorem completeTask_success
    (db : DB) (tid uid : String) (notes : Option String) (task : Task)
    (htid : tid ≠ "") (huid : uid ≠ "")
    (hsel : db.tasks.filter (fun t => t.id == tid && t.tasker_id == some uid &&
      t.status == TaskStatus.inProgress) = [task]) :
    completeTask db tid uid notes =
      (.ok, db.updateTasks (fun t => t.id == tid)
        (fun t => { t with
          status := .pendingCustomerApproval,
          description := if jsTruthy notes then
              task.title ++ "\n\nCompletion Notes: " ++ (notes.getD "")
            else t.description })) := by
  unfold completeTask
  rw [if_neg (by push_neg; exact ⟨htid, huid⟩)]
  rw [selectSingle_eq_some_iff.mpr hsel]

/-- Success characterization of the cancel route. -/
theorem cancelTask_success
    (db : DB) (tid uid reason cby : String) (task : Task)
    (h0 : tid ≠ "") (h1 : uid ≠ "") (h2 : reason ≠ "") (h3 : cby ≠ "")
    (hsel : db.tasks.filter (fun t => t.id == tid) = [task])
    (hauthz : (!(task.customer_id == uid) && !(sqlEq (some uid) task.tasker_id)) = false)
    (hmatch : ((cby == "customer" && !(task.customer_id == uid)) ||
               (cby == "tasker" && !(sqlEq (some uid) task.tasker_id))) = false)
    (hnc : (task.status == TaskStatus.completed) = false)
    (hnx : (task.status == TaskStatus.cancelled) = false) :
    cancelTask db tid uid reason cby =
      (.ok,
       (let db1 := db.updateTasks (fun t => t.id == tid)
          (fun t => { t with
            status := .cancelled,
            description := task.title ++ "\n\nCancelled by: " ++ cby ++
              "\nReason: " ++ reason });
        let db2 := if cby == "tasker" && jsTruthy task.tasker_id then
            db1.updateUsers (fun u => sqlEq (some u.id) task.tasker_id)
              (fun u => { u with is_available := true })
          else db1;
        if task.status == TaskStatus.inProgress ∨ task.status == TaskStatus.assigned then
          db2.updatePayments
            (fun p => p.task_id == tid && p.status == HoldStatus.authorized)
            (fun p => { p with
              status := .voided,
              release_reason := some ("Task cancelled by " ++ cby ++ ": " ++ reason) })
        else db2)) := by
  unfold cancelTask
  rw [if_neg (by push_neg; exact ⟨h0, h1, h2, h3⟩)]
  rw [selectSingle_eq_some_iff.mpr hsel]
  simp only [hauthz, hmatch, hnc, hnx, Bool.false_eq_true, if_false]

/-- Per-table form of a successful cancel. -/
theorem cancelTask_components
    (db : DB) (tid uid reason cby : String) (task : Task)
    (h0 : tid ≠ "") (h1 : uid ≠ "") (h2 : reason ≠ "") (h3 : cby ≠ "")
    (hsel : db.tasks.filter (fun t => t.id == tid) = [task])
    (hauthz : (!(task.customer_id == uid) && !(sqlEq (some uid) task.tasker_id)) = false)
    (hmatch : ((cby == "customer" && !(task.customer_id == uid)) ||
               (cby == "tasker" && !(sqlEq (some uid) task.tasker_id))) = false)
    (hnc : (task.status == TaskStatus.completed) = false)
    (hnx : (task.status == TaskStatus.cancelled) = false) :
    (cancelTask db tid uid reason cby).1 = .ok ∧
    (cancelTask db tid uid reason cby).2.tasks =
      updateRows db.tasks (fun t => t.id == tid)
        (fun t => { t with
          status := .cancelled,
          description := task.title ++ "\n\nCancelled by: " ++ cby ++
            "\nReason: " ++ reason }) ∧
    (cancelTask db tid uid reason cby).2.task_payments =
      (if task.status == TaskStatus.inProgress ∨ task.status == TaskStatus.assigned then
        updateRows db.task_payments
          (fun p => p.task_id == tid && p.status == HoldStatus.authorized)
          (fun p => { p with
            status := .voided,
            release_reason := some ("Task cancelled by " ++ cby ++ ": " ++ reason) })
      else db.task_payments) ∧
    (cancelTask db tid uid reason cby).2.users =
      (if cby == "tasker" && jsTruthy task.tasker_id then
        updateRows db.users (fun u => sqlEq (some u.id) task.tasker_id)
          (fun u => { u with is_available := true })
      else db.users) := by
  rw [cancelTask_success db tid uid reason cby task h0 h1 h2 h3 hsel hauthz hmatch hnc hnx]
  refine ⟨rfl, ?_, ?_, ?_⟩ <;>
    by_cases hvoid : (task.status == TaskStatus.inProgress ∨
        task.status == TaskStatus.assigned) <;>
      by_cases havail : ((cby == "tasker" && jsTruthy task.tasker_id) = true) <;>
        simp only [hvoid, havail, if_true, if_false, Bool.false_eq_true,
          DB.updateTasks, DB.updateUsers, DB.updatePayments, if_pos, if_neg]

/-- Claim C10: a complete call carrying non-empty completion notes, and
every successful cancel call, overwrite the task description with a new
string built from the task title plus the notes or the cancellation data,
so the original description is not preserved by these transitions. -/
theorem complete_and_cancel_overwrite_description
    (db : DB) (tid : String) (task : Task)
    (htid : tid ≠ "")
    (htask : db.tasks.filter (fun x => x.id == tid) = [task]) :
    (∀ uid s, uid ≠ "" → s ≠ "" →
      task.tasker_id = some uid → task.status = .inProgress →
      (completeTask db tid uid (some s)).1 = .ok ∧
      (completeTask db tid uid (some s)).2.tasks.filter (fun x => x.id == tid) =
        [{ task with
            status := .pendingCustomerApproval,
            description := task.title ++ "\n\nCompletion Notes: " ++ s }]) ∧
    (∀ uid reason cby, uid ≠ "" → reason ≠ "" → cby ≠ "" →
      (!(task.customer_id == uid) && !(sqlEq (some uid) task.tasker_id)) = false →
      ((cby == "customer" && !(task.customer_id == uid)) ||
        (cby == "tasker" && !(sqlEq (some uid) task.tasker_id))) = false →
      (task.status == TaskStatus.completed) = false →
      (task.status == TaskStatus.cancelled) = false →
      (cancelTask db tid uid reason cby).1 = .ok ∧
      (cancelTask db tid uid reason cby).2.tasks.filter (fun x => x.id == tid) =
        [{ task with
            status := .cancelled,
            description := task.title ++ "\n\nCancelled by: " ++ cby ++
              "\nReason: " ++ reason }]) := by
  have hkey : (task.id == tid) = true := (filter_single_mem htask).2
  constructor
  · intro uid s huid hs htk hst
    have hsel : db.tasks.filter (fun t => t.id == tid && t.tasker_id == some uid &&
        t.status == TaskStatus.inProgress) = [task] := by
      rw [filter_sub_of_single htask
        (fun x hx => by rw [Bool.and_eq_true, Bool.and_eq_true] at hx; exact hx.1.1)]
      rw [if_pos (by simp [hkey, htk, hst])]
    rw [completeTask_success db tid uid (some s) task htid huid hsel]
    refine ⟨rfl, ?_⟩
    have hjs : jsTruthy (some s) = true := by
      simp [jsTruthy]
      exact hs
    show (updateRows db.tasks (fun t => t.id == tid) _).filter _ = _
    refine (filter_updateRows_single htask (fun x hx => hx) ?hk1).trans ?_
    case hk1 => intro x; rfl
    rw [if_pos hkey]
    simp [hjs]
  · intro uid reason cby huid hr hc hauthz hmatch hnc hnx
    have hcomp := cancelTask_components db tid uid reason cby task htid huid hr hc
      htask hauthz hmatch hnc hnx
    refine ⟨hcomp.1, ?_⟩
    rw [hcomp.2.1]
    refine (filter_updateRows_single htask (fun x hx => hx) ?hk2).trans ?_
    case hk2 => intro x; rfl
    rw [if_pos hkey]

/-- Witness for C10: the concrete descriptions produced on the started and
assigned fixtures. -/
theorem complete_and_cancel_overwrite_description_witness :
    (completeTask dbStarted "t1" "w1" (some "all done")).2.tasks.filter
        (fun x => x.id == "t1") =
      [{ tStartedT1 with
          status := .pendingCustomerApproval,
          description := tStartedT1.title ++ "\n\nCompletion Notes: " ++ "all done" }] ∧
    (cancelTask dbAssigned "t1" "w1" "emergency" "tasker").2.tasks.filter
        (fun x => x.id == "t1") =
      [{ tAssignedT1 with
          status := .cancelled,
          description := tAssignedT1.title ++ "\n\nCancelled by: " ++ "tasker" ++
            "\nReason: " ++ "emergency" }] := by
  constructor
  · exact ((complete_and_cancel_overwrite_description dbStarted "t1" tStartedT1
      (by decide) (by decide)).1 "w1" "all done" (by decide) (by decide)
      (by decide) (by decide)).2
  · exact ((complete_and_cancel_overwrite_description dbAssigned "t1" tAssignedT1
      (by decide) (by decide)).2 "w1" "emergency" "tasker" (by decide) (by decide)
      (by decide) (by decide) (by decide) (by decide) (by decide)).2

/-- Characterization of the reject branch of confirm-complete. -/
theorem confirmComplete_reject
    (db : DB) (tid cid : String) (fb : Option String) (rating : Option Nat) (cok : Bool)
    (task : Task)
    (htid : tid ≠ "") (hcid : cid ≠ "")
    (hsel : db.tasks.filter (fun t => t.id == tid && t.customer_id == cid &&
      t.status == TaskStatus.pendingCustomerApproval) = [task]) :
    confirmComplete db tid cid false fb rating cok =
      (.ok,
       { db.updateTasks (fun t => t.id == tid)
           (fun t => { t with status := .disputed }) with
         dispute_cases := db.dispute_cases ++
           [{ task_id := tid, complainant_id := cid, respondent_id := task.tasker_id,
              dispute_reason := "task_not_completed",
              description := disputeDescription fb, status := "open" }] }) := by
  unfold confirmComplete
  rw [if_neg (by push_neg; exact ⟨htid, hcid⟩)]
  rw [selectSingle_eq_some_iff.mpr hsel]
  rfl

/-- Claim C5: a confirm call rejecting (approved = false) a task that is
pending the calling customer's approval sets the task to disputed, inserts
an open dispute case whose complainant is the customer and whose respondent
is the assigned tasker, and leaves the payments table untouched (no capture
and no void). -/
theorem confirm_reject_creates_open_dispute
    (db : DB) (tid cid : String) (fb : Option String) (rating : Option Nat) (cok : Bool)
    (task : Task)
    (htid : tid ≠ "") (hcid : cid ≠ "")
    (htask : db.tasks.filter (fun x => x.id == tid) = [task])
    (hcust : task.customer_id = cid) (hst : task.status = .pendingCustomerApproval) :
    (confirmComplete db tid cid false fb rating cok).1 = .ok ∧
    (confirmComplete db tid cid false fb rating cok).2.tasks.filter
      (fun x => x.id == tid) = [{ task with status := .disputed }] ∧
    (confirmComplete db tid cid false fb rating cok).2.dispute_cases =
      db.dispute_cases ++
        [{ task_id := tid, complainant_id := cid, respondent_id := task.tasker_id,
           dispute_reason := "task_not_completed",
           description := disputeDescription fb, status := "open" }] ∧
    (confirmComplete db tid cid false fb rating cok).2.task_payments =
      db.task_payments := by
  have hkey : (task.id == tid) = true := (filter_single_mem htask).2
  have hsel : db.tasks.filter (fun t => t.id == tid && t.customer_id == cid &&
      t.status == TaskStatus.pendingCustomerApproval) = [task] := by
    rw [filter_sub_of_single htask
      (fun x hx => by rw [Bool.and_eq_true, Bool.and_eq_true] at hx; exact hx.1.1)]
    rw [if_pos (by simp [hkey, hcust, hst])]
  rw [confirmComplete_reject db tid cid fb rating cok task htid hcid hsel]
  refine ⟨rfl, ?_, rfl, rfl⟩
  show (db.updateTasks (fun t => t.id == tid) _).tasks.filter _ = _
  refine (filter_updateRows_single htask (fun x hx => hx) ?hk5).trans ?_
  case hk5 => intro x; rfl
  rw [if_pos hkey]

/-- Witness for C5: rejecting the pending fixture yields the disputed
status, the open dispute case, and unchanged payments. -/
theorem confirm_reject_creates_open_dispute_witness :
    (confirmComplete dbPendingA "t1" "c1" false (some "bad job") none true).1 = .ok ∧
    (confirmComplete dbPendingA "t1" "c1" false (some "bad job") none true).2.dispute_cases
      = dbPendingA.dispute_cases ++
        [{ task_id := "t1", complainant_id := "c1",
           respondent_id := tPendingT1.tasker_id,
           dispute_reason := "task_not_completed",
           description := disputeDescription (some "bad job"), status := "open" }] ∧
    (confirmComplete dbPendingA "t1" "c1" false (some "bad job") none true).2.task_payments
      = dbPendingA.task_payments := by
  have h := confirm_reject_creates_open_dispute dbPendingA "t1" "c1" (some "bad job")
    none true tPendingT1 (by decide) (by decide) (by decide) (by decide) (by decide)
  exact ⟨h.1, h.2.2.1, h.2.2.2⟩

/-- Characterization of the approve branch of confirm-complete when the
pending task, its authorized hold, and the tasker row are all found. -/
theorem confirmComplete_approve
    (db : DB) (tid cid : String) (fb : Option String) (rating : Option Nat) (cok : Bool)
    (task : Task) (h : PaymentHold) (w : User)
    (htid : tid ≠ "") (hcid : cid ≠ "")
    (hsel : db.tasks.filter (fun t => t.id == tid && t.customer_id == cid &&
      t.status == TaskStatus.pendingCustomerApproval) = [task])
    (hpay : db.task_payments.filter
      (fun p => p.task_id == tid && p.status == HoldStatus.authorized) = [h])
    (husr : db.users.filter (fun u => sqlEq (some u.id) task.tasker_id) = [w]) :
    confirmComplete db tid cid true fb rating cok =
      (.ok, confirmApproveState db tid cid fb rating task w) := by
  unfold confirmComplete confirmApproveState
  rw [if_neg (by push_neg; exact ⟨htid, hcid⟩)]
  rw [selectSingle_eq_some_iff.mpr hsel]
  simp only [DB.updateTasks, DB.updatePayments, DB.updateUsers]
  rw [selectSingle_eq_some_iff.mpr
    (show (List.filter (fun p => p.task_id == tid && p.status == HoldStatus.authorized)
      db.task_payments) = [h] from hpay)]
  rw [selectSingle_eq_some_iff.mpr
    (show (List.filter (fun u => sqlEq (some u.id) task.tasker_id) db.users) = [w]
      from husr)]
  rfl

/-- Tasks table after the approve branch. -/
theorem confirmApproveState_tasks (db : DB) (tid cid : String) (fb : Option String)
    (rating : Option Nat) (task : Task) (w : User) :
    (confirmApproveState db tid cid fb rating task w).tasks =
      updateRows db.tasks (fun t => t.id == tid)
        (fun t => { t with status := .completed }) := by
  unfold confirmApproveState
  split
  · rfl
  · split
    · dsimp only
      split <;> rfl
    · rfl

/-- Payments table after the approve branch. -/
theorem confirmApproveState_payments (db : DB) (tid cid : String) (fb : Option String)
    (rating : Option Nat) (task : Task) (w : User) :
    (confirmApproveState db tid cid fb rating task w).task_payments =
      updateRows db.task_payments
        (fun p => p.task_id == tid && p.status == HoldStatus.authorized)
        (fun p => { p with
          status := .captured,
          release_reason := some "Customer approved task completion" }) := by
  unfold confirmApproveState
  split
  · rfl
  · split
    · dsimp only
      split <;> rfl
    · rfl

/-- Row shape after a user update that preserves the aggregate fields. -/
theorem exists_user_row_after_update {l : List User} {pred : User → Bool}
    {g : User → User} {v : User}
    (h : l.filter pred = [v]) (hpv : pred v = true)
    (hkeep : ∀ x, pred (g x) = pred x)
    (he : ∀ x, (g x).total_earnings = x.total_earnings)
    (hc : ∀ x, (g x).total_tasks_completed = x.total_tasks_completed)
    (ha : ∀ x, (g x).is_available = x.is_available) :
    ∃ w', (updateRows l pred g).filter pred = [w'] ∧
      w'.total_earnings = v.total_earnings ∧
      w'.total_tasks_completed = v.total_tasks_completed ∧
      w'.is_available = v.is_available := by
  refine ⟨g v, ?_, he v, hc v, ha v⟩
  rw [filter_updateRows_single h (fun x hx => hx) hkeep, if_pos hpv]

/-- Tasker aggregate fields after the approve branch. -/
theorem confirmApproveState_users (db : DB) (tid cid : String) (fb : Option String)
    (rating : Option Nat) (task : Task) (w : User)
    (husr : db.users.filter (fun u => sqlEq (some u.id) task.tasker_id) = [w]) :
    ∃ w', (confirmApproveState db tid cid fb rating task w).users.filter
        (fun u => sqlEq (some u.id) task.tasker_id) = [w'] ∧
      w'.total_earnings =
        some (w.total_earnings.getD 0 + jsOrRat task.agreed_price task.budget_min) ∧
      w'.total_tasks_completed = some (w.total_tasks_completed.getD 0 + 1) ∧
      w'.is_available = true := by
  have hw : sqlEq (some w.id) task.tasker_id = true := (filter_single_mem husr).2
  have hstats : (updateRows db.users (fun u => sqlEq (some u.id) task.tasker_id)
      (fun u => { u with
        total_earnings := some (w.total_earnings.getD 0 +
          jsOrRat task.agreed_price task.budget_min),
        total_tasks_completed := some (w.total_tasks_completed.getD 0 + 1),
        is_available := true })).filter (fun u => sqlEq (some u.id) task.tasker_id) =
      [{ w with
        total_earnings := some (w.total_earnings.getD 0 +
          jsOrRat task.agreed_price task.budget_min),
        total_tasks_completed := some (w.total_tasks_completed.getD 0 + 1),
        is_available := true }] := by
    refine (filter_updateRows_single husr (fun x hx => hx) ?hka).trans ?_
    case hka => intro x; rfl
    rw [if_pos hw]
  unfold confirmApproveState
  split
  · exact ⟨_, hstats, rfl, rfl, rfl⟩
  · split
    · dsimp only
      split
      · exact exists_user_row_after_update hstats hw
          (fun x => rfl) (fun x => rfl) (fun x => rfl) (fun x => rfl)
      · exact ⟨_, hstats, rfl, rfl, rfl⟩
    · exact ⟨_, hstats, rfl, rfl, rfl⟩

/-- Claim C6: a confirm call approving (approved = true) a task pending the
calling customer's approval captures the authorized hold and updates the
tasker's aggregates: earnings increase by the price, the completed count by
one, and the availability flag is set true. -/
theorem confirm_approve_captures_and_credits
    (db : DB) (tid cid : String) (fb : Option String) (rating : Option Nat) (cok : Bool)
    (task : Task) (h : PaymentHold) (w : User)
    (htid : tid ≠ "") (hcid : cid ≠ "")
    (htask : db.tasks.filter (fun x => x.id == tid) = [task])
    (hcust : task.customer_id = cid) (hst : task.status = .pendingCustomerApproval)
    (hhold : holdsFor db tid = [h]) (hauth : h.status = .authorized)
    (husr : db.users.filter (fun u => sqlEq (some u.id) task.tasker_id) = [w]) :
    (confirmComplete db tid cid true fb rating cok).1 = .ok ∧
    (confirmComplete db tid cid true fb rating cok).2.tasks.filter
      (fun x => x.id == tid) = [{ task with status := .completed }] ∧
    (confirmComplete db tid cid true fb rating cok).2.task_payments.filter
      (fun p => p.task_id == tid) =
      [{ h with
          status := .captured,
          release_reason := some "Customer approved task completion" }] ∧
    (∃ w', (confirmComplete db tid cid true fb rating cok).2.users.filter
        (fun u => sqlEq (some u.id) task.tasker_id) = [w'] ∧
      w'.total_earnings = some (w.total_earnings.getD 0 +
        jsOrRat task.agreed_price task.budget_min) ∧
      w'.total_tasks_completed = some (w.total_tasks_completed.getD 0 + 1) ∧
      w'.is_available = true) := by
  have hkey : (task.id == tid) = true := (filter_single_mem htask).2
  have hsel : db.tasks.filter (fun t => t.id == tid && t.customer_id == cid &&
      t.status == TaskStatus.pendingCustomerApproval) = [task] := by
    rw [filter_sub_of_single htask
      (fun x hx => by rw [Bool.and_eq_true, Bool.and_eq_true] at hx; exact hx.1.1)]
    rw [if_pos (by simp [hkey, hcust, hst])]
  have hhold' : db.task_payments.filter (fun p => p.task_id == tid) = [h] := hhold
  have hpk : (h.task_id == tid) = true := (filter_single_mem hhold').2
  have hpay : db.task_payments.filter
      (fun p => p.task_id == tid && p.status == HoldStatus.authorized) = [h] := by
    rw [filter_sub_of_single hhold'
      (fun x hx => by rw [Bool.and_eq_true] at hx; exact hx.1)]
    rw [if_pos (by simp [hpk, hauth])]
  rw [confirmComplete_approve db tid cid fb rating cok task h w htid hcid hsel hpay husr]
  refine ⟨rfl, ?_, ?_, ?_⟩
  · show (confirmApproveState db tid cid fb rating task w).tasks.filter _ = _
    rw [confirmApproveState_tasks]
    refine (filter_updateRows_single htask (fun x hx => hx) ?hk1).trans ?_
    case hk1 => intro x; rfl
    rw [if_pos hkey]
  · show (confirmApproveState db tid cid fb rating task w).task_payments.filter _ = _
    rw [confirmApproveState_payments]
    refine (filter_updateRows_single hhold'
      (fun x hx => by rw [Bool.and_eq_true] at hx; exact hx.1) ?hk2).trans ?_
    case hk2 => intro x; rfl
    rw [if_pos (by simp [hpk, hauth])]
  · show ∃ w', (confirmApproveState db tid cid fb rating task w).users.filter _ = [w'] ∧ _
    exact confirmApproveState_users db tid cid fb rating task w husr

/-- Witness for C6: approving the pending fixture captures the hold and
credits tasker w1 with 75 earnings and one more completed task. -/
theorem confirm_approve_captures_and_credits_witness :
    (confirmComplete dbPendingA "t1" "c1" true none none true).1 = .ok ∧
    (confirmComplete dbPendingA "t1" "c1" true none none true).2.task_payments.filter
      (fun p => p.task_id == "t1") =
      [{ holdT1 with
          status := .captured,
          release_reason := some "Customer approved task completion" }] ∧
    (∃ w', (confirmComplete dbPendingA "t1" "c1" true none none true).2.users.filter
        (fun u => sqlEq (some u.id) tPendingT1.tasker_id) = [w'] ∧
      w'.total_earnings = some ((taskerW1.total_earnings.getD 0) +
        jsOrRat tPendingT1.agreed_price tPendingT1.budget_min) ∧
      w'.total_tasks_completed = some (taskerW1.total_tasks_completed.getD 0 + 1) ∧
      w'.is_available = true) := by
  have h := confirm_approve_captures_and_credits dbPendingA "t1" "c1" none none true
    tPendingT1 holdT1 taskerW1 (by decide) (by decide) (by decide) (by decide)
    (by decide) (by decide) (by decide) (by decide)
  exact ⟨h.1, h.2.2.1, h.2.2.2⟩

/-- Reviews table after an approving confirm with a valid rating. -/
theorem confirmApproveState_reviews_rated (db : DB) (tid cid : String)
    (fb : Option String) (r : Nat) (task : Task) (w : User) (hr : 1 ≤ r ∧ r ≤ 5) :
    (confirmApproveState db tid cid fb (some r) task w).task_reviews =
      db.task_reviews ++ [insertedReview tid cid task r fb] := by
  unfold confirmApproveState
  show (if 1 ≤ r ∧ r ≤ 5 then _ else _ : DB).task_reviews = _
  rw [if_pos hr]
  dsimp only
  split <;> rfl

/-- Row shape after a user update that only rewrites the average rating. -/
theorem exists_user_row_avg {l : List User} {pred : User → Bool}
    {v : User} {q : Option Rat}
    (h : l.filter pred = [v]) (hpv : pred v = true)
    (hkeep : ∀ x, pred ({ x with average_rating := q }) = pred x) :
    ∃ w', (updateRows l pred
        (fun x => { x with average_rating := q })).filter pred = [w'] ∧
      w'.average_rating = q := by
  refine ⟨{ v with average_rating := q }, ?_, rfl⟩
  rw [filter_updateRows_single h (fun x hx => hx) hkeep, if_pos hpv]

/-- Average rating after an approving confirm with a valid rating: the mean
is recomputed over the full post-insert review set. -/
theorem confirmApproveState_users_rated (db : DB) (tid cid : String)
    (fb : Option String) (r : Nat) (task : Task) (w : User) (wid : String)
    (husr : db.users.filter (fun u => sqlEq (some u.id) task.tasker_id) = [w])
    (htk : task.tasker_id = some wid) (hr : 1 ≤ r ∧ r ≤ 5) :
    ∃ w', (confirmApproveState db tid cid fb (some r) task w).users.filter
        (fun u => sqlEq (some u.id) task.tasker_id) = [w'] ∧
      w'.average_rating = some (meanRating
        ((db.task_reviews ++ [insertedReview tid cid task r fb]).filter
          (taskerReviewPred task))) := by
  have hw : sqlEq (some w.id) task.tasker_id = true := (filter_single_mem husr).2
  have hprednew : (fun rv => sqlEq rv.reviewee_id task.tasker_id &&
      rv.review_type == "customer_to_tasker")
      ({ task_id := tid, reviewer_id := cid, reviewee_id := task.tasker_id,
         rating := r, review_text := fb.getD "",
         review_type := "customer_to_tasker" } : Review) = true := by
    simp [sqlEq, htk]
  have hlen : ∀ l : List Review, 0 <
      ((l ++
        [({ task_id := tid, reviewer_id := cid, reviewee_id := task.tasker_id,
            rating := r, review_text := fb.getD "",
            review_type := "customer_to_tasker" } : Review)]).filter
        (fun rv => sqlEq rv.reviewee_id task.tasker_id &&
          rv.review_type == "customer_to_tasker")).length := by
    intro l
    rw [List.filter_append]
    simp [List.filter_cons, sqlEq, htk]
  have hstats : (updateRows db.users (fun u => sqlEq (some u.id) task.tasker_id)
      (fun u => { u with
        total_earnings := some (w.total_earnings.getD 0 +
          jsOrRat task.agreed_price task.budget_min),
        total_tasks_completed := some (w.total_tasks_completed.getD 0 + 1),
        is_available := true })).filter (fun u => sqlEq (some u.id) task.tasker_id) =
      [{ w with
        total_earnings := some (w.total_earnings.getD 0 +
          jsOrRat task.agreed_price task.budget_min),
        total_tasks_completed := some (w.total_tasks_completed.getD 0 + 1),
        is_available := true }] := by
    refine (filter_updateRows_single husr (fun x hx => hx) ?hka).trans ?_
    case hka => intro x; rfl
    rw [if_pos hw]
  have husers : (confirmApproveState db tid cid fb (some r) task w).users =
      updateRows
        (updateRows db.users (fun u => sqlEq (some u.id) task.tasker_id)
          (fun u => { u with
            total_earnings := some (w.total_earnings.getD 0 +
              jsOrRat task.agreed_price task.budget_min),
            total_tasks_completed := some (w.total_tasks_completed.getD 0 + 1),
            is_available := true }))
        (fun u => sqlEq (some u.id) task.tasker_id)
        (fun u => { u with average_rating := some (meanRating
          ((db.task_reviews ++ [insertedReview tid cid task r fb]).filter
            (taskerReviewPred task))) }) := by
    unfold confirmApproveState
    show (if 1 ≤ r ∧ r ≤ 5 then _ else _ : DB).users = _
    rw [if_pos hr]
    dsimp only [DB.updateTasks, DB.updatePayments, DB.updateUsers]
    rw [if_pos (hlen db.task_reviews)]
    rfl
  rw [husers]
  exact exists_user_row_avg hstats hw (fun x => rfl)

/-- Claim C7: when a rating between 1 and 5 accompanies an approving
confirm, a review row is inserted and the tasker's average rating is set to
the arithmetic mean recomputed over the full set of that tasker's received
reviews, not an incremental running average. -/
theorem confirm_rating_recomputes_mean
    (db : DB) (tid cid : String) (fb : Option String) (r : Nat) (cok : Bool)
    (task : Task) (h : PaymentHold) (w : User) (wid : String)
    (htid : tid ≠ "") (hcid : cid ≠ "")
    (htask : db.tasks.filter (fun x => x.id == tid) = [task])
    (hcust : task.customer_id = cid) (hst : task.status = .pendingCustomerApproval)
    (htk : task.tasker_id = some wid)
    (hhold : holdsFor db tid = [h]) (hauth : h.status = .authorized)
    (husr : db.users.filter (fun u => sqlEq (some u.id) task.tasker_id) = [w])
    (hr : 1 ≤ r ∧ r ≤ 5) :
    (confirmComplete db tid cid true fb (some r) cok).2.task_reviews =
      db.task_reviews ++ [insertedReview tid cid task r fb] ∧
    (∃ w', (confirmComplete db tid cid true fb (some r) cok).2.users.filter
        (fun u => sqlEq (some u.id) task.tasker_id) = [w'] ∧
      w'.average_rating = some (meanRating
        ((db.task_reviews ++ [insertedReview tid cid task r fb]).filter
          (taskerReviewPred task)))) := by
  have hkey : (task.id == tid) = true := (filter_single_mem htask).2
  have hsel : db.tasks.filter (fun t => t.id == tid && t.customer_id == cid &&
      t.status == TaskStatus.pendingCustomerApproval) = [task] := by
    rw [filter_sub_of_single htask
      (fun x hx => by rw [Bool.and_eq_true, Bool.and_eq_true] at hx; exact hx.1.1)]
    rw [if_pos (by simp [hkey, hcust, hst])]
  have hhold' : db.task_payments.filter (fun p => p.task_id == tid) = [h] := hhold
  have hpk : (h.task_id == tid) = true := (filter_single_mem hhold').2
  have hpay : db.task_payments.filter
      (fun p => p.task_id == tid && p.status == HoldStatus.authorized) = [h] := by
    rw [filter_sub_of_single hhold'
      (fun x hx => by rw [Bool.and_eq_true] at hx; exact hx.1)]
    rw [if_pos (by simp [hpk, hauth])]
  rw [confirmComplete_approve db tid cid fb (some r) cok task h w htid hcid hsel hpay husr]
  constructor
  · show (confirmApproveState db tid cid fb (some r) task w).task_reviews = _
    exact confirmApproveState_reviews_rated db tid cid fb r task w hr
  · show ∃ w', (confirmApproveState db tid cid fb (some r) task w).users.filter _ =
      [w'] ∧ _
    exact confirmApproveState_users_rated db tid cid fb r task w wid husr htk hr

/-- Witness for C7: with prior ratings 5 and 4 on record, approving with
rating 3 leaves tasker w1 with average rating exactly 4. -/
theorem confirm_rating_recomputes_mean_witness :
    (confirmComplete dbPendingR "t1" "c1" true none (some 3) true).2.task_reviews.length
      = 3 ∧
    (∃ w', (confirmComplete dbPendingR "t1" "c1" true none (some 3) true).2.users.filter
        (fun u => sqlEq (some u.id) tPendingT1.tasker_id) = [w'] ∧
      w'.average_rating = some 4) := by
  have h := confirm_rating_recomputes_mean dbPendingR "t1" "c1" none 3 true
    tPendingT1 holdT1 taskerW1 "w1" (by decide) (by decide) (by decide) (by decide)
    (by decide) (by decide) (by decide) (by decide) (by decide) (by decide)
  constructor
  · rw [h.1]
    decide
  · obtain ⟨w', hflt, havg⟩ := h.2
    refine ⟨w', hflt, ?_⟩
    rw [havg]
    have hfil : (dbPendingR.task_reviews ++
        [insertedReview "t1" "c1" tPendingT1 3 none]).filter
        (taskerReviewPred tPendingT1) =
        dbPendingR.task_reviews ++ [insertedReview "t1" "c1" tPendingT1 3 none] := by
      decide
    rw [hfil]
    simp [meanRating, dbPendingR, insertedReview]
    norm_num

/-- Counterexample for C8: on the fixture awaiting customer approval, a
cancel call succeeds while the task's authorized hold stays authorized — it
is not voided, contradicting the claim that every successful cancel voids
an authorized hold. -/
theorem cancel_claim_counterexample :
    (cancelTask dbPendingA "t1" "c1" "changed mind" "customer").1 = .ok ∧
    dbPendingA.task_payments.map (fun p => p.status) = [HoldStatus.authorized] ∧
    (cancelTask dbPendingA "t1" "c1" "changed mind" "customer").2.task_payments.map
      (fun p => p.status) = [HoldStatus.authorized] := by decide

/-- Amended C8: a successful cancel voids the authorized hold only when the
task's pre-cancel status is assigned or in_progress; and when the assigned
tasker cancels, the tasker's availability flag is set true again. -/
theorem cancel_voids_hold_when_active
    (db : DB) (tid uid reason cby : String) (task : Task) (h : PaymentHold)
    (h0 : tid ≠ "") (h1 : uid ≠ "") (h2 : reason ≠ "") (h3 : cby ≠ "")
    (hsel : db.tasks.filter (fun t => t.id == tid) = [task])
    (hauthz : (!(task.customer_id == uid) && !(sqlEq (some uid) task.tasker_id)) = false)
    (hmatch : ((cby == "customer" && !(task.customer_id == uid)) ||
               (cby == "tasker" && !(sqlEq (some uid) task.tasker_id))) = false)
    (hnc : (task.status == TaskStatus.completed) = false)
    (hnx : (task.status == TaskStatus.cancelled) = false) :
    (cancelTask db tid uid reason cby).1 = .ok ∧
    ((task.status = .assigned ∨ task.status = .inProgress) →
      holdsFor db tid = [h] → h.status = .authorized →
      holdsFor (cancelTask db tid uid reason cby).2 tid =
        [{ h with
            status := .voided,
            release_reason := some ("Task cancelled by " ++ cby ++ ": " ++ reason) }]) ∧
    (cby = "tasker" → sqlEq (some uid) task.tasker_id = true →
      ∀ w, db.users.filter (fun u => sqlEq (some u.id) task.tasker_id) = [w] →
      (cancelTask db tid uid reason cby).2.users.filter
        (fun u => sqlEq (some u.id) task.tasker_id) =
        [{ w with is_available := true }]) := by
  have hcomp := cancelTask_components db tid uid reason cby task h0 h1 h2 h3 hsel
    hauthz hmatch hnc hnx
  refine ⟨hcomp.1, ?_, ?_⟩
  · intro hpre hhold hauth
    have hhold' : db.task_payments.filter (fun p => p.task_id == tid) = [h] := hhold
    have hpk : (h.task_id == tid) = true := (filter_single_mem hhold').2
    show (cancelTask db tid uid reason cby).2.task_payments.filter
      (fun p => p.task_id == tid) = _
    rw [hcomp.2.2.1]
    rw [if_pos (by rcases hpre with hpre | hpre <;> simp [hpre])]
    refine (filter_updateRows_single hhold'
      (fun x hx => by rw [Bool.and_eq_true] at hx; exact hx.1) ?hkv).trans ?_
    case hkv => intro x; rfl
    rw [if_pos (by simp [hpk, hauth])]
  · intro hcby hist w husr
    obtain ⟨v, htk, hv⟩ : ∃ v, task.tasker_id = some v ∧ (uid == v) = true := by
      cases htkc : task.tasker_id with
      | none => rw [htkc] at hist; simp [sqlEq] at hist
      | some v => rw [htkc] at hist; exact ⟨v, rfl, hist⟩
    have hjs : jsTruthy task.tasker_id = true := by
      rw [htk]
      simp only [beq_iff_eq] at hv
      subst hv
      simp [jsTruthy]
      exact h1
    have hw : sqlEq (some w.id) task.tasker_id = true := (filter_single_mem husr).2
    rw [hcomp.2.2.2]
    rw [if_pos (by simp [hcby, hjs])]
    refine (filter_updateRows_single husr (fun x hx => hx) ?hkw).trans ?_
    case hkw => intro x; rfl
    rw [if_pos hw]

/-- Witness for amended C8: the tasker cancelling the assigned fixture
voids the hold and regains availability. -/
theorem cancel_voids_hold_when_active_witness :
    (cancelTask dbAssigned "t1" "w1" "emergency" "tasker").1 = .ok ∧
    holdsFor (cancelTask dbAssigned "t1" "w1" "emergency" "tasker").2 "t1" =
      [{ holdT1 with
          status := .voided,
          release_reason := some ("Task cancelled by " ++ "tasker" ++ ": " ++
            "emergency") }] ∧
    (cancelTask dbAssigned "t1" "w1" "emergency" "tasker").2.users.filter
      (fun u => sqlEq (some u.id) tAssignedT1.tasker_id) =
      [{ taskerW1 with is_available := true }] := by
  have h := cancel_voids_hold_when_active dbAssigned "t1" "w1" "emergency" "tasker"
    tAssignedT1 holdT1 (by decide) (by decide) (by decide) (by decide) (by decide)
    (by decide) (by decide) (by decide) (by decide)
  exact ⟨h.1, h.2.1 (Or.inl (by decide)) (by decide) (by decide),
    h.2.2 rfl (by decide) taskerW1 (by decide)⟩

end Sabi
namespace Sabi
theorem filter_updateRows_comm {α : Type} {l : List α} {q p : α → Bool} {f : α → α}
    (hf : ∀ x, q (f x) = q x) :
    (updateRows l p f).filter q = updateRows (l.filter q) p f := by
  induction l with
  | nil => rfl
  | cons x xs ih =>
    rw [updateRows_cons]
    by_cases hqx : q x
    · rw [List.filter_cons_of_pos hqx, updateRows_cons]
      by_cases hpx : p x
      · rw [if_pos hpx, List.filter_cons_of_pos (by rw [hf]; exact hqx), ih]
      · rw [if_neg hpx, List.filter_cons_of_pos hqx, ih]
    · rw [List.filter_cons_of_neg hqx]
      by_cases hpx : p x
      · rw [if_pos hpx, List.filter_cons_of_neg (by rw [hf]; exact hqx), ih]
      · rw [if_neg hpx, List.filter_cons_of_neg hqx, ih]

theorem filter_sub_key_cases {l : List Task}
    (hp : l.Pairwise (fun a b => a.id ≠ b.id))
    {pred : Task → Bool} {tid : String}
    (hsub : ∀ x, pred x = true → (x.id == tid) = true) :
    l.filter pred = [] ∨ ∃ x, l.filter pred = [x] := by
  cases hf : l.filter pred with
  | nil => exact Or.inl rfl
  | cons x xs =>
    right
    have hx : x ∈ l ∧ pred x = true := by
      have hmem : x ∈ l.filter pred := by rw [hf]; exact List.mem_cons_self _ _
      rw [List.mem_filter] at hmem
      exact hmem
    have hkeq : x.id = tid := by
      have := hsub x hx.2
      simpa using this
    have hkey := filter_key_of_mem hp hx.1 hkeq
    have hone := filter_sub_of_single hkey hsub
    rw [if_pos hx.2] at hone
    exact ⟨x, hf.symm.trans hone⟩

theorem exists_same_id_updateRows {l : List Task} {p : Task → Bool} {f : Task → Task}
    (hf : ∀ x, (f x).id = x.id) {i : String}
    (h : ∃ t ∈ l, t.id = i) : ∃ t ∈ updateRows l p f, t.id = i := by
  obtain ⟨t, ht, hi⟩ := h
  refine ⟨if p t then f t else t, mem_updateRows.mpr ⟨t, ht, rfl⟩, ?_⟩
  by_cases hpt : p t <;> simp [hpt, hf, hi]

theorem updateTasks_id (db : DB) {p : Task → Bool} {f : Task → Task}
    (h : db.tasks.filter p = []) : db.updateTasks p f = db := by
  unfold DB.updateTasks
  rw [updateRows_of_filter_nil h]

theorem arrivedTask_state (db : DB) (tid uid : String) :
    (arrivedTask db tid uid).2 = db := by
  unfold arrivedTask
  split
  · rfl
  · split <;> rfl

theorem createTask_shape (db : DB) (cid title descr addr : String) (price : Rat)
    (newId : String) :
    (createTask db cid title descr addr price newId).2 = db ∨
    (createTask db cid title descr addr price newId).2 =
      { db with tasks := db.tasks ++
        [{ id := newId, customer_id := cid, tasker_id := none, title := title,
           description := descr, task_address := addr, budget_min := price,
           agreed_price := none, status := .posted }] } := by
  unfold createTask
  split
  · exact Or.inl rfl
  · split
    · exact Or.inl rfl
    · split
      · exact Or.inl rfl
      · exact Or.inr rfl

theorem startTask_shape (db : DB) (tid uid : String) :
    (startTask db tid uid).2 = db ∨
    ∃ task, db.tasks.filter (fun t => t.id == tid && t.tasker_id == some uid &&
        t.status == TaskStatus.assigned) = [task] ∧
      (startTask db tid uid).2 =
        db.updateTasks (fun t => t.id == tid)
          (fun t => { t with status := .inProgress }) := by
  unfold startTask
  split
  · exact Or.inl rfl
  · split
    · exact Or.inl rfl
    · next task hsome =>
      exact Or.inr ⟨task, selectSingle_eq_some_iff.mp hsome, rfl⟩

theorem completeTask_shape (db : DB) (tid uid : String) (notes : Option String) :
    (completeTask db tid uid notes).2 = db ∨
    ∃ task, db.tasks.filter (fun t => t.id == tid && t.tasker_id == some uid &&
        t.status == TaskStatus.inProgress) = [task] ∧
      (completeTask db tid uid notes).2 =
        db.updateTasks (fun t => t.id == tid)
          (fun t => { t with
            status := .pendingCustomerApproval,
            description := if jsTruthy notes then
                task.title ++ "\n\nCompletion Notes: " ++ (notes.getD "")
              else t.description }) := by
  unfold completeTask
  split
  · exact Or.inl rfl
  · split
    · exact Or.inl rfl
    · next task hsome =>
      exact Or.inr ⟨task, selectSingle_eq_some_iff.mp hsome, rfl⟩

theorem acceptTask_shape (db : DB) (tid uid : String) (ok : Bool) (pid : String) :
    (acceptTask db tid uid ok pid).2.1 = db ∨
    (selectSingle db.tasks (claimPred tid) = none ∧
      (acceptTask db tid uid ok pid).2.1 =
        db.updateTasks (claimPred tid) (claimPatch uid)) ∨
    ∃ t, db.tasks.filter (claimPred tid) = [t] ∧
      (acceptTask db tid uid ok pid).2.1 =
        { db.updateTasks (claimPred tid) (claimPatch uid) with
          task_payments := db.task_payments ++
            [{ task_id := tid, amount_held := (claimPatch uid t).budget_min,
               status := .authorized,
               stripe_payment_intent_id := if ok then some pid else none,
               release_reason := none }] } := by
  unfold acceptTask
  split
  · exact Or.inl rfl
  · split
    · exact Or.inl rfl
    · split
      · exact Or.inl rfl
      · split
        · next hnone => exact Or.inr (Or.inl ⟨hnone, rfl⟩)
        · next t hsome =>
          refine Or.inr (Or.inr ⟨t, selectSingle_eq_some_iff.mp hsome, ?_⟩)
          split
          · next hok =>
            simp only [hok, if_true]
            rfl
          · next hok =>
            simp only [Bool.not_eq_true] at hok
            simp only [hok, Bool.false_eq_true, if_false]
            rfl
end Sabi
namespace Sabi
theorem cancelTask_shape (db : DB) (tid uid reason cby : String) :
    (cancelTask db tid uid reason cby).2 = db ∨
    ∃ task, db.tasks.filter (fun t => t.id == tid) = [task] ∧
      (task.status == TaskStatus.completed) = false ∧
      (task.status == TaskStatus.cancelled) = false ∧
      (cancelTask db tid uid reason cby).2.tasks =
        updateRows db.tasks (fun t => t.id == tid)
          (fun t => { t with
            status := .cancelled,
            description := task.title ++ "\n\nCancelled by: " ++ cby ++
              "\nReason: " ++ reason }) ∧
      (cancelTask db tid uid reason cby).2.task_payments =
        (if task.status == TaskStatus.inProgress ∨ task.status == TaskStatus.assigned then
          updateRows db.task_payments
            (fun p => p.task_id == tid && p.status == HoldStatus.authorized)
            (fun p => { p with
              status := .voided,
              release_reason := some ("Task cancelled by " ++ cby ++ ": " ++ reason) })
        else db.task_payments) := by
  by_cases h0 : (tid = "" ∨ uid = "" ∨ reason = "" ∨ cby = "")
  · left
    unfold cancelTask
    rw [if_pos h0]
  · push_neg at h0
    obtain ⟨h0a, h0b, h0c, h0d⟩ := h0
    cases hsel : selectSingle db.tasks (fun t => t.id == tid) with
    | none =>
      left
      unfold cancelTask
      rw [if_neg (by push_neg; exact ⟨h0a, h0b, h0c, h0d⟩), hsel]
    | some task =>
      by_cases hauthz : (!(task.customer_id == uid) &&
          !(sqlEq (some uid) task.tasker_id)) = true
      · left
        unfold cancelTask
        rw [if_neg (by push_neg; exact ⟨h0a, h0b, h0c, h0d⟩), hsel]
        dsimp only
        rw [if_pos hauthz]
      · by_cases hmatch : ((cby == "customer" && !(task.customer_id == uid)) ||
            (cby == "tasker" && !(sqlEq (some uid) task.tasker_id))) = true
        · left
          unfold cancelTask
          rw [if_neg (by push_neg; exact ⟨h0a, h0b, h0c, h0d⟩), hsel]
          dsimp only
          rw [if_neg hauthz, if_pos hmatch]
        · by_cases hnc : (task.status == TaskStatus.completed) = true
          · left
            unfold cancelTask
            rw [if_neg (by push_neg; exact ⟨h0a, h0b, h0c, h0d⟩), hsel]
            dsimp only
            rw [if_neg hauthz, if_neg hmatch, if_pos hnc]
          · by_cases hnx : (task.status == TaskStatus.cancelled) = true
            · left
              unfold cancelTask
              rw [if_neg (by push_neg; exact ⟨h0a, h0b, h0c, h0d⟩), hsel]
              dsimp only
              rw [if_neg hauthz, if_neg hmatch, if_neg hnc, if_pos hnx]
            · right
              have hcomp := cancelTask_components db tid uid reason cby task
                h0a h0b h0c h0d (selectSingle_eq_some_iff.mp hsel)
                (Bool.eq_false_iff.mpr hauthz) (Bool.eq_false_iff.mpr hmatch)
                (Bool.eq_false_iff.mpr hnc) (Bool.eq_false_iff.mpr hnx)
              exact ⟨task, selectSingle_eq_some_iff.mp hsel,
                Bool.eq_false_iff.mpr hnc, Bool.eq_false_iff.mpr hnx,
                hcomp.2.1, hcomp.2.2.1⟩

theorem confirmComplete_tasks_shape (db : DB) (tid cid : String) (approved : Bool)
    (fb : Option String) (rating : Option Nat) (cok : Bool) :
    (confirmComplete db tid cid approved fb rating cok).2.tasks = db.tasks ∨
    ∃ task, db.tasks.filter (fun t => t.id == tid && t.customer_id == cid &&
        t.status == TaskStatus.pendingCustomerApproval) = [task] ∧
      ((approved = true ∧ (confirmComplete db tid cid approved fb rating cok).2.tasks =
          updateRows db.tasks (fun t => t.id == tid)
            (fun t => { t with status := .completed })) ∨
       (approved = false ∧ (confirmComplete db tid cid approved fb rating cok).2.tasks =
          updateRows db.tasks (fun t => t.id == tid)
            (fun t => { t with status := .disputed }))) := by
  unfold confirmComplete
  split
  · exact Or.inl rfl
  · split
    · exact Or.inl rfl
    · next task hsome =>
      right
      refine ⟨task, selectSingle_eq_some_iff.mp hsome, ?_⟩
      split
      · next hap =>
        refine Or.inl ⟨hap, ?_⟩
        dsimp only
        repeat' split
        all_goals rfl
      · next hap =>
        refine Or.inr ⟨by simpa using hap, rfl⟩

theorem confirmComplete_payments_shape (db : DB) (tid cid : String) (approved : Bool)
    (fb : Option String) (rating : Option Nat) (cok : Bool) :
    (confirmComplete db tid cid approved fb rating cok).2.task_payments =
      db.task_payments ∨
    (confirmComplete db tid cid approved fb rating cok).2.task_payments =
      updateRows db.task_payments
        (fun p => p.task_id == tid && p.status == HoldStatus.authorized)
        (fun p => { p with
          status := .captured,
          release_reason := some "Customer approved task completion" }) := by
  unfold confirmComplete
  split
  · exact Or.inl rfl
  · split
    · exact Or.inl rfl
    · split
      · dsimp only
        repeat' split
        all_goals first
          | exact Or.inl rfl
          | exact Or.inr rfl
      · exact Or.inl rfl

end Sabi
namespace Sabi
theorem holdsFor_congr {db db' : DB} (hp : db'.task_payments = db.task_payments)
    (i : String) : holdsFor db' i = holdsFor db i := by
  unfold holdsFor
  rw [hp]

theorem mostRecentHold_congr {db db' : DB} (hp : db'.task_payments = db.task_payments)
    (i : String) : mostRecentHold db' i = mostRecentHold db i := by
  unfold mostRecentHold
  rw [holdsFor_congr hp]

theorem inv_same_components {db db' : DB} (hinv : Inv db)
    (ht : db'.tasks = db.tasks) (hp : db'.task_payments = db.task_payments) :
    Inv db' := by
  obtain ⟨hpw, hfk, hcorr⟩ := hinv
  refine ⟨by rw [ht]; exact hpw, ?_, ?_⟩
  · intro p hpm
    rw [hp] at hpm
    obtain ⟨t, htm, he⟩ := hfk p hpm
    exact ⟨t, by rw [ht]; exact htm, he⟩
  · intro t htm
    rw [holdsFor_congr hp]
    rw [ht] at htm
    exact hcorr t htm

theorem inv_patch_components {db db' : DB} (hinv : Inv db)
    {tid : String} {task : Task} {f : Task → Task}
    (hmem : task ∈ db.tasks) (hkey : task.id = tid)
    (hfid : ∀ x, (f x).id = x.id)
    (ht : db'.tasks = updateRows db.tasks (fun t => t.id == tid) f)
    {g : PaymentHold → PaymentHold} {q : PaymentHold → Bool}
    (hqsub : ∀ p, q p = true → (p.task_id == tid) = true)
    (hgid : ∀ p, (g p).task_id = p.task_id)
    (hp : db'.task_payments = updateRows db.task_payments q g ∨
          db'.task_payments = db.task_payments)
    (hok : statusHoldOk (f task) (holdsFor db' tid)) :
    Inv db' := by
  obtain ⟨hpw, hfk, hcorr⟩ := hinv
  have hother : ∀ i : String, i ≠ tid → holdsFor db' i = holdsFor db i := by
    intro i hne
    unfold holdsFor
    rcases hp with hp | hp
    · rw [hp]
      rw [filter_updateRows_of_disjoint ?hd ?hf]
      case hd =>
        intro p hq
        have hpt : p.task_id = tid := by simpa using hqsub p hq
        rw [beq_eq_false_iff_ne, hpt]
        exact fun hc => hne hc.symm
      case hf =>
        intro p
        rw [hgid]
    · rw [hp]
  refine ⟨?_, ?_, ?_⟩
  · rw [ht]
    exact pairwise_ids_updateRows hfid hpw
  · intro p hpm
    have hex : ∃ p0 ∈ db.task_payments, p.task_id = p0.task_id := by
      rcases hp with hp | hp
      · rw [hp] at hpm
        obtain ⟨p0, hp0, he⟩ := mem_updateRows.mp hpm
        refine ⟨p0, hp0, ?_⟩
        by_cases hqp : q p0
        · rw [he, if_pos hqp, hgid]
        · rw [he, if_neg hqp]
      · rw [hp] at hpm
        exact ⟨p, hpm, rfl⟩
    obtain ⟨p0, hp0, hpe⟩ := hex
    obtain ⟨t0, ht0, hid0⟩ := hfk p0 hp0
    rw [ht]
    exact exists_same_id_updateRows hfid ⟨t0, ht0, hid0.trans hpe.symm⟩
  · intro t' ht'
    rw [ht] at ht'
    obtain ⟨x, hx, he⟩ := mem_updateRows.mp ht'
    by_cases hkx : (x.id == tid) = true
    · have hxid : x.id = tid := by simpa using hkx
      have hxt : x = task := mem_unique_of_ids hpw hx hmem (by rw [hxid, hkey])
      subst hxt
      rw [he, if_pos hkx]
      have hfx : (f x).id = tid := by rw [hfid]; exact hxid
      rw [hfx]
      exact hok
    · rw [he, if_neg hkx]
      have hxid : x.id ≠ tid := by simpa using hkx
      rw [hother x.id hxid]
      exact hcorr x hx
end Sabi
namespace Sabi
theorem confirmComplete_shape (db : DB) (tid cid : String) (approved : Bool)
    (fb : Option String) (rating : Option Nat) (cok : Bool) :
    ((confirmComplete db tid cid approved fb rating cok).2.tasks = db.tasks ∧
     (confirmComplete db tid cid approved fb rating cok).2.task_payments =
       db.task_payments) ∨
    (∃ task, db.tasks.filter (fun t => t.id == tid && t.customer_id == cid &&
        t.status == TaskStatus.pendingCustomerApproval) = [task] ∧
      approved = false ∧
      (confirmComplete db tid cid approved fb rating cok).2.tasks =
        updateRows db.tasks (fun t => t.id == tid)
          (fun t => { t with status := .disputed }) ∧
      (confirmComplete db tid cid approved fb rating cok).2.task_payments =
        db.task_payments) ∨
    (∃ task, db.tasks.filter (fun t => t.id == tid && t.customer_id == cid &&
        t.status == TaskStatus.pendingCustomerApproval) = [task] ∧
      approved = true ∧
      selectSingle db.task_payments
        (fun p => p.task_id == tid && p.status == HoldStatus.authorized) = none ∧
      (confirmComplete db tid cid approved fb rating cok).2.tasks =
        updateRows db.tasks (fun t => t.id == tid)
          (fun t => { t with status := .completed }) ∧
      (confirmComplete db tid cid approved fb rating cok).2.task_payments =
        db.task_payments) ∨
    (∃ task, db.tasks.filter (fun t => t.id == tid && t.customer_id == cid &&
        t.status == TaskStatus.pendingCustomerApproval) = [task] ∧
      approved = true ∧
      (confirmComplete db tid cid approved fb rating cok).2.tasks =
        updateRows db.tasks (fun t => t.id == tid)
          (fun t => { t with status := .completed }) ∧
      (confirmComplete db tid cid approved fb rating cok).2.task_payments =
        updateRows db.task_payments
          (fun p => p.task_id == tid && p.status == HoldStatus.authorized)
          (fun p => { p with
            status := .captured,
            release_reason := some "Customer approved task completion" })) := by
  unfold confirmComplete
  split
  · exact Or.inl ⟨rfl, rfl⟩
  · split
    · exact Or.inl ⟨rfl, rfl⟩
    · next task hsome =>
      split
      · next hap =>
        dsimp only [DB.updateTasks, DB.updatePayments, DB.updateUsers]
        cases hpn : selectSingle db.task_payments
            (fun p => p.task_id == tid && p.status == HoldStatus.authorized) with
        | none =>
          refine Or.inr (Or.inr (Or.inl
            ⟨task, selectSingle_eq_some_iff.mp hsome, hap, rfl, ?_, ?_⟩))
          · dsimp only
            repeat' split
            all_goals rfl
          · dsimp only
            repeat' split
            all_goals rfl
        | some pr =>
          refine Or.inr (Or.inr (Or.inr
            ⟨task, selectSingle_eq_some_iff.mp hsome, hap, ?_, ?_⟩))
          · dsimp only
            repeat' split
            all_goals rfl
          · dsimp only
            repeat' split
            all_goals rfl
      · next hap =>
        exact Or.inr (Or.inl ⟨task, selectSingle_eq_some_iff.mp hsome,
          by simpa using hap, rfl, rfl⟩)
end Sabi
namespace Sabi
theorem statusHoldOk_auth_cases {t : Task} {hs : List PaymentHold}
    (h : statusHoldOk t hs)
    (hst : t.status = .assigned ∨ t.status = .inProgress ∨
           t.status = .pendingCustomerApproval ∨ t.status = .disputed) :
    ∃ p, hs = [p] ∧ p.status = .authorized := by
  unfold statusHoldOk at h
  rcases hst with h1 | h1 | h1 | h1 <;> rw [h1] at h <;> exact h

theorem statusHoldOk_posted {t : Task} {hs : List PaymentHold}
    (h : statusHoldOk t hs) (hst : t.status = .posted) :
    hs = [] ∧ t.tasker_id = none := by
  unfold statusHoldOk at h
  rw [hst] at h
  exact h

theorem inv_insert_task {db : DB} (hinv : Inv db) {nt : Task}
    (hfresh : ∀ t ∈ db.tasks, t.id ≠ nt.id)
    (hst : nt.status = .posted) (htk : nt.tasker_id = none) :
    Inv { db with tasks := db.tasks ++ [nt] } := by
  obtain ⟨hpw, hfk, hcorr⟩ := hinv
  have hnil : db.task_payments.filter (fun p => p.task_id == nt.id) = [] := by
    rw [List.filter_eq_nil_iff]
    intro p hp hq
    obtain ⟨t, htm, hid⟩ := hfk p hp
    exact hfresh t htm (by rw [hid]; simpa using hq)
  refine ⟨?_, ?_, ?_⟩
  · show (db.tasks ++ [nt]).Pairwise (fun a b => a.id ≠ b.id)
    rw [List.pairwise_append]
    refine ⟨hpw, List.pairwise_singleton _ _, ?_⟩
    intro a ha b hb
    rcases List.mem_cons.mp hb with rfl | hb'
    · exact hfresh a ha
    · cases hb'
  · intro p hp
    obtain ⟨t, htm, hid⟩ := hfk p hp
    exact ⟨t, List.mem_append_left _ htm, hid⟩
  · intro t htm
    rcases List.mem_append.mp htm with hold | hnew
    · exact hcorr t hold
    · rcases List.mem_cons.mp hnew with rfl | hcontra
      · show statusHoldOk t (db.task_payments.filter (fun p => p.task_id == t.id))
        unfold statusHoldOk
        rw [hst, hnil]
        exact ⟨rfl, htk⟩
      · cases hcontra

theorem inv_create {db : DB} (hinv : Inv db)
    (cid title descr addr : String) (price : Rat) (newId : String)
    (hfresh : ∀ t ∈ db.tasks, t.id ≠ newId) :
    Inv (createTask db cid title descr addr price newId).2 := by
  rcases createTask_shape db cid title descr addr price newId with h | h
  · rw [h]
    exact hinv
  · rw [h]
    exact inv_insert_task hinv hfresh rfl rfl

theorem inv_patch_tasks_only {db db' : DB} (hinv : Inv db)
    {tid : String} {task : Task} {f : Task → Task}
    (hmem : task ∈ db.tasks) (hkey : task.id = tid)
    (hfid : ∀ x, (f x).id = x.id)
    (ht : db'.tasks = updateRows db.tasks (fun t => t.id == tid) f)
    (hp : db'.task_payments = db.task_payments)
    (hok : statusHoldOk (f task) (holdsFor db tid)) :
    Inv db' :=
  inv_patch_components hinv hmem hkey hfid ht (g := fun p => p) (q := fun _ => false)
    (fun p hq => by simp at hq) (fun p => rfl) (Or.inr hp)
    (by rw [holdsFor_congr hp]; exact hok)

theorem inv_start {db : DB} (hinv : Inv db) (tid uid : String) :
    Inv (startTask db tid uid).2 := by
  rcases startTask_shape db tid uid with h | ⟨task, hfilt, h⟩
  · rw [h]
    exact hinv
  · obtain ⟨htmem, htpred⟩ := filter_single_mem hfilt
    simp only [Bool.and_eq_true, beq_iff_eq] at htpred
    obtain ⟨⟨hid, htk⟩, hst⟩ := htpred
    obtain ⟨p, hpe, pauth⟩ :=
      statusHoldOk_auth_cases (hinv.2.2 task htmem) (Or.inl hst)
    refine inv_patch_tasks_only hinv
      (f := fun t => { t with status := .inProgress }) htmem hid (fun x => rfl)
      (by rw [h]; rfl) (by rw [h]; rfl) ?_
    show ∃ q, holdsFor db tid = [q] ∧ q.status = .authorized
    rw [← hid]
    exact ⟨p, hpe, pauth⟩

theorem inv_complete {db : DB} (hinv : Inv db) (tid uid : String)
    (notes : Option String) :
    Inv (completeTask db tid uid notes).2 := by
  rcases completeTask_shape db tid uid notes with h | ⟨task, hfilt, h⟩
  · rw [h]
    exact hinv
  · obtain ⟨htmem, htpred⟩ := filter_single_mem hfilt
    simp only [Bool.and_eq_true, beq_iff_eq] at htpred
    obtain ⟨⟨hid, htk⟩, hst⟩ := htpred
    obtain ⟨p, hpe, pauth⟩ :=
      statusHoldOk_auth_cases (hinv.2.2 task htmem) (Or.inr (Or.inl hst))
    refine inv_patch_tasks_only hinv
      (f := fun t => { t with
        status := .pendingCustomerApproval,
        description := if jsTruthy notes then
            task.title ++ "\n\nCompletion Notes: " ++ (notes.getD "")
          else t.description }) htmem hid (fun x => rfl)
      (by rw [h]; rfl) (by rw [h]; rfl) ?_
    show ∃ q, holdsFor db tid = [q] ∧ q.status = .authorized
    rw [← hid]
    exact ⟨p, hpe, pauth⟩
end Sabi
namespace Sabi
theorem filter_and_eq_filter_filter {α : Type} {l : List α} {p q : α → Bool} :
    l.filter (fun a => p a && q a) = (l.filter p).filter q := by
  induction l with
  | nil => rfl
  | cons x xs ih =>
    by_cases hp : p x
    · by_cases hq : q x
      · rw [List.filter_cons_of_pos (by simp [hp, hq]), List.filter_cons_of_pos hp,
          List.filter_cons_of_pos hq, ih]
      · rw [List.filter_cons_of_neg (by simp [hp, hq]), List.filter_cons_of_pos hp,
          List.filter_cons_of_neg (by simp [hq]), ih]
    · rw [List.filter_cons_of_neg (by simp [hp]), List.filter_cons_of_neg (by simp [hp]), ih]

theorem inv_claim_insert {db : DB} (hinv : Inv db) {tid : String} (uid : String)
    {t : Task} (hfilt : db.tasks.filter (claimPred tid) = [t]) (nh : PaymentHold)
    (hnid : nh.task_id = tid) (hnst : nh.status = .authorized) :
    Inv { db.updateTasks (claimPred tid) (claimPatch uid) with
          task_payments := db.task_payments ++ [nh] } := by
  obtain ⟨hpw, hfk, hcorr⟩ := hinv
  obtain ⟨htmem, htpred⟩ := filter_single_mem hfilt
  have htid : t.id = tid := by simpa using claimPred_imp_key t htpred
  have hpost : t.status = .posted := by
    unfold claimPred at htpred
    rw [Bool.and_eq_true, Bool.and_eq_true] at htpred
    simpa using htpred.1.2
  obtain ⟨hhnil, -⟩ := statusHoldOk_posted (hcorr t htmem) hpost
  have hH : ∀ i, holdsFor { db.updateTasks (claimPred tid) (claimPatch uid) with
      task_payments := db.task_payments ++ [nh] } i
      = holdsFor db i ++ [nh].filter (fun p => p.task_id == i) := by
    intro i
    unfold holdsFor
    exact List.filter_append _ _
  refine ⟨?_, ?_, ?_⟩
  · show (updateRows db.tasks (claimPred tid) (claimPatch uid)).Pairwise
      (fun a b => a.id ≠ b.id)
    exact pairwise_ids_updateRows (f := claimPatch uid) (fun x => rfl) hpw
  · intro p hp
    rcases List.mem_append.mp hp with hold | hnew
    · obtain ⟨t0, ht0, hid0⟩ := hfk p hold
      exact exists_same_id_updateRows (f := claimPatch uid) (fun x => rfl) ⟨t0, ht0, hid0⟩
    · rcases List.mem_cons.mp hnew with rfl | hc
      · exact exists_same_id_updateRows (f := claimPatch uid) (fun x => rfl)
          ⟨t, htmem, htid.trans hnid.symm⟩
      · cases hc
  · intro t' ht'
    rcases mem_updateRows.mp ht' with ⟨x, hx, he⟩
    by_cases hcp : claimPred tid x = true
    · have hxt : x = t := by
        have hxm : x ∈ db.tasks.filter (claimPred tid) :=
          List.mem_filter.mpr ⟨hx, hcp⟩
        rw [hfilt] at hxm
        exact List.mem_singleton.mp hxm
      rw [if_pos hcp] at he
      rw [he, hH]
      have hxcid : (claimPatch uid x).id = x.id := rfl
      rw [hxcid]
      have hxid : x.id = tid := by rw [hxt, htid]
      have hfone : List.filter (fun p => p.task_id == x.id) [nh] = [nh] := by
        rw [List.filter_cons_of_pos (by simp [hnid, hxid]), List.filter_nil]
      have hxnil : holdsFor db x.id = [] := by rw [hxt]; exact hhnil
      rw [hxnil, hfone, List.nil_append]
      exact ⟨nh, rfl, hnst⟩
    · rw [if_neg hcp] at he
      rw [he, hH]
      have hxid : x.id ≠ tid := by
        intro hxe
        have hxt : x = t := mem_unique_of_ids hpw hx htmem (by rw [hxe, htid])
        rw [hxt] at hcp
        exact hcp htpred
      have hfnil : List.filter (fun p => p.task_id == x.id) [nh] = [] := by
        rw [List.filter_cons_of_neg (by simp [hnid]; exact fun hc => hxid hc.symm),
          List.filter_nil]
      rw [hfnil, List.append_nil]
      exact hcorr x hx

theorem inv_accept {db : DB} (hinv : Inv db) (tid uid pid : String) (ok : Bool) :
    Inv (acceptTask db tid uid ok pid).2.1 := by
  rcases acceptTask_shape db tid uid ok pid with h | ⟨hnone, h⟩ | ⟨t, hfilt, h⟩
  · rw [h]
    exact hinv
  · rcases filter_sub_key_cases hinv.1 (fun x hx => claimPred_imp_key x hx)
        with hnil | ⟨x, hx⟩
    · rw [h, updateTasks_id db hnil]
      exact hinv
    · rw [selectSingle_eq_some_iff.mpr hx] at hnone
      cases hnone
  · rw [h]
    exact inv_claim_insert hinv uid hfilt _ rfl rfl

theorem inv_confirm {db : DB} (hinv : Inv db) (tid cid : String) (approved : Bool)
    (fb : Option String) (rating : Option Nat) (cok : Bool) :
    Inv (confirmComplete db tid cid approved fb rating cok).2 := by
  rcases confirmComplete_shape db tid cid approved fb rating cok with
    ⟨ht, hp⟩ | ⟨task, hfilt, hap, ht, hp⟩ | ⟨task, hfilt, hap, hpn, ht, hp⟩ |
    ⟨task, hfilt, hap, ht, hp⟩
  · exact inv_same_components hinv ht hp
  · obtain ⟨htmem, htpred⟩ := filter_single_mem hfilt
    simp only [Bool.and_eq_true, beq_iff_eq] at htpred
    obtain ⟨⟨hid, hcid⟩, hst⟩ := htpred
    obtain ⟨p, hpe, pauth⟩ := statusHoldOk_auth_cases (hinv.2.2 task htmem)
      (Or.inr (Or.inr (Or.inl hst)))
    refine inv_patch_tasks_only hinv (f := fun t => { t with status := .disputed })
      htmem hid (fun x => rfl) ht hp ?_
    show ∃ q, holdsFor db tid = [q] ∧ q.status = .authorized
    rw [← hid]
    exact ⟨p, hpe, pauth⟩
  · exfalso
    obtain ⟨htmem, htpred⟩ := filter_single_mem hfilt
    simp only [Bool.and_eq_true, beq_iff_eq] at htpred
    obtain ⟨⟨hid, hcid⟩, hst⟩ := htpred
    obtain ⟨p, hpe, pauth⟩ := statusHoldOk_auth_cases (hinv.2.2 task htmem)
      (Or.inr (Or.inr (Or.inl hst)))
    have hkey : db.task_payments.filter (fun q => q.task_id == tid) = [p] := by
      have h0 := hpe
      unfold holdsFor at h0
      rw [hid] at h0
      exact h0
    have hone : db.task_payments.filter
        (fun q => q.task_id == tid && q.status == HoldStatus.authorized) = [p] := by
      rw [filter_and_eq_filter_filter, hkey,
        List.filter_cons_of_pos (by simp [pauth]), List.filter_nil]
    rw [selectSingle_eq_some_iff.mpr hone] at hpn
    cases hpn
  · obtain ⟨htmem, htpred⟩ := filter_single_mem hfilt
    simp only [Bool.and_eq_true, beq_iff_eq] at htpred
    obtain ⟨⟨hid, hcid⟩, hst⟩ := htpred
    obtain ⟨p, hpe, pauth⟩ := statusHoldOk_auth_cases (hinv.2.2 task htmem)
      (Or.inr (Or.inr (Or.inl hst)))
    have hkey : db.task_payments.filter (fun q => q.task_id == tid) = [p] := by
      have h0 := hpe
      unfold holdsFor at h0
      rw [hid] at h0
      exact h0
    refine inv_patch_components hinv (f := fun t => { t with status := .completed })
      htmem hid (fun x => rfl) ht
      (q := fun q => q.task_id == tid && q.status == HoldStatus.authorized)
      (g := fun q => { q with
        status := .captured,
        release_reason := some "Customer approved task completion" })
      (fun q hq => by rw [Bool.and_eq_true] at hq; exact hq.1) (fun q => rfl)
      (Or.inl hp) ?_
    show ∃ q, holdsFor (confirmComplete db tid cid approved fb rating cok).2 tid = [q] ∧
      q.status = HoldStatus.captured
    unfold holdsFor
    rw [hp, filter_updateRows_single (f := fun q => { q with
      status := .captured,
      release_reason := some "Customer approved task completion" }) hkey
      (fun q hq => by rw [Bool.and_eq_true] at hq; exact hq.1) (fun q => rfl)]
    rw [if_pos (by simp [(filter_single_mem hkey).2, pauth])]
    exact ⟨_, rfl, rfl⟩

theorem inv_cancel {db : DB} (hinv : Inv db) (tid uid reason cby : String) :
    Inv (cancelTask db tid uid reason cby).2 := by
  rcases cancelTask_shape db tid uid reason cby with h | ⟨task, hfilt, hnc, hnx, ht, hp⟩
  · rw [h]
    exact hinv
  · obtain ⟨htmem, htkey⟩ := filter_single_mem hfilt
    have hid : task.id = tid := by simpa using htkey
    cases hstv : task.status with
    | posted =>
      rw [hstv] at hp
      rw [if_neg (by simp)] at hp
      obtain ⟨hnil, -⟩ := statusHoldOk_posted (hinv.2.2 task htmem) hstv
      refine inv_patch_tasks_only hinv (f := fun t => { t with
        status := .cancelled,
        description := task.title ++ "\n\nCancelled by: " ++ cby ++
          "\nReason: " ++ reason }) htmem hid (fun x => rfl) ht hp ?_
      show holdsFor db tid = [] ∨ ∃ q, holdsFor db tid = [q] ∧
        (q.status = HoldStatus.voided ∨ q.status = HoldStatus.authorized)
      left
      rw [← hid]
      exact hnil
    | assigned =>
      rw [hstv] at hp
      rw [if_pos (by simp)] at hp
      obtain ⟨p, hpe, pauth⟩ := statusHoldOk_auth_cases (hinv.2.2 task htmem) (Or.inl hstv)
      have hkey : db.task_payments.filter (fun q => q.task_id == tid) = [p] := by
        have h0 := hpe
        unfold holdsFor at h0
        rw [hid] at h0
        exact h0
      refine inv_patch_components hinv (f := fun t => { t with
        status := .cancelled,
        description := task.title ++ "\n\nCancelled by: " ++ cby ++
          "\nReason: " ++ reason }) htmem hid (fun x => rfl) ht
        (q := fun q => q.task_id == tid && q.status == HoldStatus.authorized)
        (g := fun q => { q with
          status := .voided,
          release_reason := some ("Task cancelled by " ++ cby ++ ": " ++ reason) })
        (fun q hq => by rw [Bool.and_eq_true] at hq; exact hq.1) (fun q => rfl)
        (Or.inl hp) ?_
      show holdsFor (cancelTask db tid uid reason cby).2 tid = [] ∨
        ∃ q, holdsFor (cancelTask db tid uid reason cby).2 tid = [q] ∧
          (q.status = HoldStatus.voided ∨ q.status = HoldStatus.authorized)
      right
      refine ⟨{ p with
        status := .voided,
        release_reason := some ("Task cancelled by " ++ cby ++ ": " ++ reason) },
        ?_, Or.inl rfl⟩
      unfold holdsFor
      rw [hp, filter_updateRows_single (f := fun q => { q with
        status := .voided,
        release_reason := some ("Task cancelled by " ++ cby ++ ": " ++ reason) }) hkey
        (fun q hq => by rw [Bool.and_eq_true] at hq; exact hq.1) (fun q => rfl)]
      rw [if_pos (by simp [(filter_single_mem hkey).2, pauth])]
    | inProgress =>
      rw [hstv] at hp
      rw [if_pos (by simp)] at hp
      obtain ⟨p, hpe, pauth⟩ := statusHoldOk_auth_cases (hinv.2.2 task htmem)
        (Or.inr (Or.inl hstv))
      have hkey : db.task_payments.filter (fun q => q.task_id == tid) = [p] := by
        have h0 := hpe
        unfold holdsFor at h0
        rw [hid] at h0
        exact h0
      refine inv_patch_components hinv (f := fun t => { t with
        status := .cancelled,
        description := task.title ++ "\n\nCancelled by: " ++ cby ++
          "\nReason: " ++ reason }) htmem hid (fun x => rfl) ht
        (q := fun q => q.task_id == tid && q.status == HoldStatus.authorized)
        (g := fun q => { q with
          status := .voided,
          release_reason := some ("Task cancelled by " ++ cby ++ ": " ++ reason) })
        (fun q hq => by rw [Bool.and_eq_true] at hq; exact hq.1) (fun q => rfl)
        (Or.inl hp) ?_
      show holdsFor (cancelTask db tid uid reason cby).2 tid = [] ∨
        ∃ q, holdsFor (cancelTask db tid uid reason cby).2 tid = [q] ∧
          (q.status = HoldStatus.voided ∨ q.status = HoldStatus.authorized)
      right
      refine ⟨{ p with
        status := .voided,
        release_reason := some ("Task cancelled by " ++ cby ++ ": " ++ reason) },
        ?_, Or.inl rfl⟩
      unfold holdsFor
      rw [hp, filter_updateRows_single (f := fun q => { q with
        status := .voided,
        release_reason := some ("Task cancelled by " ++ cby ++ ": " ++ reason) }) hkey
        (fun q hq => by rw [Bool.and_eq_true] at hq; exact hq.1) (fun q => rfl)]
      rw [if_pos (by simp [(filter_single_mem hkey).2, pauth])]
    | pendingCustomerApproval =>
      rw [hstv] at hp
      rw [if_neg (by simp)] at hp
      obtain ⟨p, hpe, pauth⟩ := statusHoldOk_auth_cases (hinv.2.2 task htmem)
        (Or.inr (Or.inr (Or.inl hstv)))
      refine inv_patch_tasks_only hinv (f := fun t => { t with
        status := .cancelled,
        description := task.title ++ "\n\nCancelled by: " ++ cby ++
          "\nReason: " ++ reason }) htmem hid (fun x => rfl) ht hp ?_
      show holdsFor db tid = [] ∨ ∃ q, holdsFor db tid = [q] ∧
        (q.status = HoldStatus.voided ∨ q.status = HoldStatus.authorized)
      right
      rw [← hid]
      exact ⟨p, hpe, Or.inr pauth⟩
    | disputed =>
      rw [hstv] at hp
      rw [if_neg (by simp)] at hp
      obtain ⟨p, hpe, pauth⟩ := statusHoldOk_auth_cases (hinv.2.2 task htmem)
        (Or.inr (Or.inr (Or.inr hstv)))
      refine inv_patch_tasks_only hinv (f := fun t => { t with
        status := .cancelled,
        description := task.title ++ "\n\nCancelled by: " ++ cby ++
          "\nReason: " ++ reason }) htmem hid (fun x => rfl) ht hp ?_
      show holdsFor db tid = [] ∨ ∃ q, holdsFor db tid = [q] ∧
        (q.status = HoldStatus.voided ∨ q.status = HoldStatus.authorized)
      right
      rw [← hid]
      exact ⟨p, hpe, Or.inr pauth⟩
    | completed =>
      rw [hstv] at hnc
      simp at hnc
    | cancelled =>
      rw [hstv] at hnx
      simp at hnx

theorem step_inv {db db' : DB} (hinv : Inv db) (hs : Step db db') : Inv db' := by
  cases hs with
  | create cid title descr addr price newId hfresh =>
    exact inv_create hinv cid title descr addr price newId hfresh
  | accept tid uid pid ok => exact inv_accept hinv tid uid pid ok
  | arrived tid uid =>
    rw [arrivedTask_state db tid uid]
    exact hinv
  | start tid uid => exact inv_start hinv tid uid
  | complete tid uid notes => exact inv_complete hinv tid uid notes
  | confirm tid cid approved fb rating cok =>
    exact inv_confirm hinv tid cid approved fb rating cok
  | cancel tid uid reason cby => exact inv_cancel hinv tid uid reason cby
  | usersChange us => exact inv_same_components hinv rfl rfl

theorem reachable_inv {db : DB} (hr : Reachable db) : Inv db := by
  induction hr with
  | init us =>
    refine ⟨List.Pairwise.nil, ?_, ?_⟩
    · intro p hp
      cases hp
    · intro t ht
      cases ht
  | step _ hs ih => exact step_inv ih hs
end Sabi
namespace Sabi
theorem inv_completed_iff {db : DB} (hinv : Inv db) {t : Task} (ht : t ∈ db.tasks) :
    t.status = TaskStatus.completed ↔
      ∃ h, mostRecentHold db t.id = some h ∧ h.status = HoldStatus.captured := by
  have hcorr := hinv.2.2 t ht
  constructor
  · intro hst
    have hc : ∃ p, holdsFor db t.id = [p] ∧ p.status = HoldStatus.captured := by
      unfold statusHoldOk at hcorr
      rw [hst] at hcorr
      exact hcorr
    obtain ⟨p, hpe, pc⟩ := hc
    exact ⟨p, by unfold mostRecentHold; rw [hpe]; simp, pc⟩
  · rintro ⟨h, hml, hc⟩
    unfold mostRecentHold at hml
    cases hstv : t.status with
    | completed => rfl
    | posted =>
      obtain ⟨hnil, -⟩ := statusHoldOk_posted hcorr hstv
      rw [hnil] at hml
      simp at hml
    | assigned =>
      obtain ⟨p, hpe, pauth⟩ := statusHoldOk_auth_cases hcorr (Or.inl hstv)
      rw [hpe] at hml
      simp at hml
      rw [← hml] at hc
      rw [pauth] at hc
      cases hc
    | inProgress =>
      obtain ⟨p, hpe, pauth⟩ := statusHoldOk_auth_cases hcorr (Or.inr (Or.inl hstv))
      rw [hpe] at hml
      simp at hml
      rw [← hml] at hc
      rw [pauth] at hc
      cases hc
    | pendingCustomerApproval =>
      obtain ⟨p, hpe, pauth⟩ := statusHoldOk_auth_cases hcorr (Or.inr (Or.inr (Or.inl hstv)))
      rw [hpe] at hml
      simp at hml
      rw [← hml] at hc
      rw [pauth] at hc
      cases hc
    | disputed =>
      obtain ⟨p, hpe, pauth⟩ := statusHoldOk_auth_cases hcorr (Or.inr (Or.inr (Or.inr hstv)))
      rw [hpe] at hml
      simp at hml
      rw [← hml] at hc
      rw [pauth] at hc
      cases hc
    | cancelled =>
      unfold statusHoldOk at hcorr
      rw [hstv] at hcorr
      rcases hcorr with hnil | ⟨p, hpe, hpor⟩
      · rw [hnil] at hml
        simp at hml
      · rw [hpe] at hml
        simp at hml
        rw [← hml] at hc
        rcases hpor with hv | ha
        · rw [hv] at hc
          cases hc
        · rw [ha] at hc
          cases hc

theorem inv_disputed_auth {db : DB} (hinv : Inv db) {t : Task} (ht : t ∈ db.tasks)
    (hst : t.status = TaskStatus.disputed) :
    ∃ h, mostRecentHold db t.id = some h ∧ h.status = HoldStatus.authorized := by
  obtain ⟨p, hpe, pauth⟩ :=
    statusHoldOk_auth_cases (hinv.2.2 t ht) (Or.inr (Or.inr (Or.inr hst)))
  exact ⟨p, by unfold mostRecentHold; rw [hpe]; simp, pauth⟩

theorem track_of_state_eq {db db' : DB} (h : db' = db)
    (hpw : db.tasks.Pairwise (fun a b => a.id ≠ b.id))
    {t t' : Task} (ht : t ∈ db.tasks) (ht' : t' ∈ db'.tasks) (hid : t'.id = t.id) :
    t' = t :=
  mem_unique_of_ids hpw (by rw [h] at ht'; exact ht') ht hid

theorem cancelVoidIff_frozen {db db' : DB}
    (hpeq : db'.task_payments = db.task_payments)
    {t t' : Task} (htt : t' = t) : CancelVoidIff db db' t t' := by
  unfold CancelVoidIff
  apply iff_of_false
  · rintro ⟨h1, h2⟩
    rw [htt] at h2
    rcases h1 with h1 | h1 <;> rw [h1] at h2 <;> cases h2
  · rintro ⟨hnot, hv⟩
    rw [mostRecentHold_congr hpeq] at hv
    exact hnot hv

theorem cancelVoidIff_patch {db db' : DB} {f : Task → Task}
    (hfst : ∀ x, (f x).status ≠ TaskStatus.cancelled)
    (hpeq : db'.task_payments = db.task_payments)
    {t t' : Task} {c : Bool} (htrack : t' = if c then f t else t) :
    CancelVoidIff db db' t t' := by
  unfold CancelVoidIff
  apply iff_of_false
  · rintro ⟨h1, h2⟩
    rw [htrack] at h2
    cases c with
    | true =>
      rw [if_pos rfl] at h2
      exact hfst t h2
    | false =>
      rw [if_neg (by simp)] at h2
      rcases h1 with h1 | h1 <;> rw [h1] at h2 <;> cases h2
  · rintro ⟨hnot, hv⟩
    rw [mostRecentHold_congr hpeq] at hv
    exact hnot hv

theorem voided_after_updateRows {l : List PaymentHold} {q : PaymentHold → Bool}
    {g : PaymentHold → PaymentHold}
    (hgid : ∀ x, (g x).task_id = x.task_id)
    (hgst : ∀ x, (g x).status ≠ HoldStatus.voided)
    {i : String} {h : PaymentHold}
    (hml : ((updateRows l q g).filter (fun p => p.task_id == i)).getLast? = some h)
    (hv : h.status = HoldStatus.voided) :
    ∃ h0, (l.filter (fun p => p.task_id == i)).getLast? = some h0 ∧
      h0.status = HoldStatus.voided := by
  rw [filter_updateRows_comm (fun x => by rw [hgid])] at hml
  unfold updateRows at hml
  rw [List.getLast?_map] at hml
  cases hbase : (l.filter (fun p => p.task_id == i)).getLast? with
  | none =>
    rw [hbase] at hml
    simp at hml
  | some p =>
    rw [hbase] at hml
    simp only [Option.map_some'] at hml
    have hpe : (if q p then g p else p) = h := Option.some.inj hml
    by_cases hqp : q p
    · rw [if_pos hqp] at hpe
      rw [← hpe] at hv
      exact absurd hv (hgst p)
    · rw [if_neg hqp] at hpe
      refine ⟨p, rfl, ?_⟩
      rw [hpe]
      exact hv

theorem cancelVoidIff_capture {db db' : DB} {f : Task → Task}
    (hfst : ∀ x, (f x).status ≠ TaskStatus.cancelled)
    {q : PaymentHold → Bool} {g : PaymentHold → PaymentHold}
    (hpeq : db'.task_payments = updateRows db.task_payments q g)
    (hgid : ∀ x, (g x).task_id = x.task_id)
    (hgst : ∀ x, (g x).status ≠ HoldStatus.voided)
    {t t' : Task} {c : Bool} (htrack : t' = if c then f t else t) :
    CancelVoidIff db db' t t' := by
  unfold CancelVoidIff
  apply iff_of_false
  · rintro ⟨h1, h2⟩
    rw [htrack] at h2
    cases c with
    | true =>
      rw [if_pos rfl] at h2
      exact hfst t h2
    | false =>
      rw [if_neg (by simp)] at h2
      rcases h1 with h1 | h1 <;> rw [h1] at h2 <;> cases h2
  · rintro ⟨hnot, hv⟩
    obtain ⟨h, hml, hvst⟩ := hv
    unfold mostRecentHold holdsFor at hml
    rw [hpeq] at hml
    obtain ⟨h0, hml0, hv0⟩ := voided_after_updateRows hgid hgst hml hvst
    exact hnot ⟨h0, hml0, hv0⟩

theorem cancelVoidIff_append {db db' : DB} {f : Task → Task}
    (hfst : ∀ x, (f x).status ≠ TaskStatus.cancelled)
    {nh : PaymentHold} (hpeq : db'.task_payments = db.task_payments ++ [nh])
    (hnst : nh.status ≠ HoldStatus.voided)
    {t t' : Task} {c : Bool} (htrack : t' = if c then f t else t) :
    CancelVoidIff db db' t t' := by
  unfold CancelVoidIff
  apply iff_of_false
  · rintro ⟨h1, h2⟩
    rw [htrack] at h2
    cases c with
    | true =>
      rw [if_pos rfl] at h2
      exact hfst t h2
    | false =>
      rw [if_neg (by simp)] at h2
      rcases h1 with h1 | h1 <;> rw [h1] at h2 <;> cases h2
  · rintro ⟨hnot, hv⟩
    obtain ⟨h, hml, hvst⟩ := hv
    unfold mostRecentHold holdsFor at hml
    rw [hpeq, List.filter_append] at hml
    by_cases hni : (nh.task_id == t.id) = true
    · have hfone : List.filter (fun p => p.task_id == t.id) [nh] = [nh] := by
        simp [hni]
      rw [hfone, List.getLast?_concat] at hml
      have hnh : nh = h := Option.some.inj hml
      rw [← hnh] at hvst
      exact hnst hvst
    · have hfnil : List.filter (fun p => p.task_id == t.id) [nh] = [] := by
        simp [hni]
      rw [hfnil, List.append_nil] at hml
      exact hnot ⟨h, hml, hvst⟩
end Sabi
namespace Sabi
theorem step_cancel_voided_iff {db db' : DB} (hinv : Inv db) (hs : Step db db')
    {t t' : Task} (ht : t ∈ db.tasks) (ht' : t' ∈ db'.tasks) (hid : t'.id = t.id) :
    CancelVoidIff db db' t t' := by
  have hpw := hinv.1
  cases hs with
  | create cid title descr addr price newId hfresh =>
    rcases createTask_shape db cid title descr addr price newId with h | h
    · exact cancelVoidIff_frozen (by rw [h]) (track_of_state_eq h hpw ht ht' hid)
    · have htt : t' = t := by
        rw [h] at ht'
        rcases List.mem_append.mp ht' with h0 | h0
        · exact mem_unique_of_ids hpw h0 ht hid
        · rcases List.mem_cons.mp h0 with rfl | hc
          · exact absurd hid.symm (hfresh t ht)
          · cases hc
      exact cancelVoidIff_frozen (by rw [h]) htt
  | accept tid uid pid ok =>
    rcases acceptTask_shape db tid uid ok pid with h | ⟨hnone, h⟩ | ⟨tk, hfilt, h⟩
    · exact cancelVoidIff_frozen (by rw [h]) (track_of_state_eq h hpw ht ht' hid)
    · rcases filter_sub_key_cases hpw (fun x hx => claimPred_imp_key x hx)
          with hnil | ⟨x, hx⟩
      · have hdb : (acceptTask db tid uid ok pid).2.1 = db := by
          rw [h, updateTasks_id db hnil]
        exact cancelVoidIff_frozen (by rw [hdb]) (track_of_state_eq hdb hpw ht ht' hid)
      · rw [selectSingle_eq_some_iff.mpr hx] at hnone
        cases hnone
    · have htrack : t' = if claimPred tid t then claimPatch uid t else t :=
        updateRows_track hpw (p := claimPred tid) (f := claimPatch uid)
          (fun x => rfl) ht (by rw [h] at ht'; exact ht') hid
      exact cancelVoidIff_append (f := claimPatch uid)
        (fun x hcon => by simp [claimPatch] at hcon)
        (by rw [h]) (by simp) htrack
  | arrived tid uid =>
    exact cancelVoidIff_frozen (by rw [arrivedTask_state db tid uid])
      (track_of_state_eq (arrivedTask_state db tid uid) hpw ht ht' hid)
  | start tid uid =>
    rcases startTask_shape db tid uid with h | ⟨task, hfilt, h⟩
    · exact cancelVoidIff_frozen (by rw [h]) (track_of_state_eq h hpw ht ht' hid)
    · have htrack : t' = if (t.id == tid) then
          (fun x => { x with status := TaskStatus.inProgress }) t else t :=
        updateRows_track hpw (p := fun x => x.id == tid)
          (f := fun x => { x with status := TaskStatus.inProgress })
          (fun x => rfl) ht (by rw [h] at ht'; exact ht') hid
      exact cancelVoidIff_patch (f := fun x => { x with status := TaskStatus.inProgress })
        (fun x hcon => by simp at hcon) (by rw [h]; rfl) htrack
  | complete tid uid notes =>
    rcases completeTask_shape db tid uid notes with h | ⟨task, hfilt, h⟩
    · exact cancelVoidIff_frozen (by rw [h]) (track_of_state_eq h hpw ht ht' hid)
    · have htrack : t' = if (t.id == tid) then
          (fun x => { x with
            status := TaskStatus.pendingCustomerApproval,
            description := if jsTruthy notes then
                task.title ++ "\n\nCompletion Notes: " ++ (notes.getD "")
              else x.description }) t else t :=
        updateRows_track hpw (p := fun x => x.id == tid)
          (f := fun x => { x with
            status := TaskStatus.pendingCustomerApproval,
            description := if jsTruthy notes then
                task.title ++ "\n\nCompletion Notes: " ++ (notes.getD "")
              else x.description })
          (fun x => rfl) ht (by rw [h] at ht'; exact ht') hid
      exact cancelVoidIff_patch (f := fun x => { x with
          status := TaskStatus.pendingCustomerApproval,
          description := if jsTruthy notes then
              task.title ++ "\n\nCompletion Notes: " ++ (notes.getD "")
            else x.description })
        (fun x hcon => by simp at hcon) (by rw [h]; rfl) htrack
  | confirm tid cid approved fb rating cok =>
    rcases confirmComplete_shape db tid cid approved fb rating cok with
      ⟨hteq, hpeq⟩ | ⟨task, hfilt, hap, hteq, hpeq⟩ |
      ⟨task, hfilt, hap, hpn, hteq, hpeq⟩ | ⟨task, hfilt, hap, hteq, hpeq⟩
    · exact cancelVoidIff_frozen hpeq
        (mem_unique_of_ids hpw (by rw [hteq] at ht'; exact ht') ht hid)
    · have htrack : t' = if (t.id == tid) then
          (fun x => { x with status := TaskStatus.disputed }) t else t :=
        updateRows_track hpw (p := fun x => x.id == tid)
          (f := fun x => { x with status := TaskStatus.disputed })
          (fun x => rfl) ht (by rw [hteq] at ht'; exact ht') hid
      exact cancelVoidIff_patch (f := fun x => { x with status := TaskStatus.disputed })
        (fun x hcon => by simp at hcon) hpeq htrack
    · have htrack : t' = if (t.id == tid) then
          (fun x => { x with status := TaskStatus.completed }) t else t :=
        updateRows_track hpw (p := fun x => x.id == tid)
          (f := fun x => { x with status := TaskStatus.completed })
          (fun x => rfl) ht (by rw [hteq] at ht'; exact ht') hid
      exact cancelVoidIff_patch (f := fun x => { x with status := TaskStatus.completed })
        (fun x hcon => by simp at hcon) hpeq htrack
    · have htrack : t' = if (t.id == tid) then
          (fun x => { x with status := TaskStatus.completed }) t else t :=
        updateRows_track hpw (p := fun x => x.id == tid)
          (f := fun x => { x with status := TaskStatus.completed })
          (fun x => rfl) ht (by rw [hteq] at ht'; exact ht') hid
      exact cancelVoidIff_capture (f := fun x => { x with status := TaskStatus.completed })
        (fun x hcon => by simp at hcon) hpeq
        (fun x => rfl) (fun x hcon => by simp at hcon) htrack
  | cancel tid uid reason cby =>
    rcases cancelTask_shape db tid uid reason cby with h | ⟨task, hfilt, hnc, hnx, hteq, hp⟩
    · exact cancelVoidIff_frozen (by rw [h]) (track_of_state_eq h hpw ht ht' hid)
    · obtain ⟨htaskmem, htaskkey⟩ := filter_single_mem hfilt
      have htaskid : task.id = tid := by simpa using htaskkey
      have htrack : t' = if (t.id == tid) then
          (fun x => { x with
            status := TaskStatus.cancelled,
            description := task.title ++ "\n\nCancelled by: " ++ cby ++
              "\nReason: " ++ reason }) t else t :=
        updateRows_track hpw (p := fun x => x.id == tid)
          (f := fun x => { x with
            status := TaskStatus.cancelled,
            description := task.title ++ "\n\nCancelled by: " ++ cby ++
              "\nReason: " ++ reason })
          (fun x => rfl) ht (by rw [hteq] at ht'; exact ht') hid
      by_cases hkt : (t.id == tid) = true
      · have hteq2 : t.id = tid := by simpa using hkt
        have htt : t = task := mem_unique_of_ids hpw ht htaskmem
          (by rw [hteq2, htaskid])
        rw [if_pos hkt] at htrack
        cases hstv : t.status with
        | assigned =>
          have hst2 : task.status = TaskStatus.assigned := by rw [← htt]; exact hstv
          rw [if_pos (by simp [hst2])] at hp
          obtain ⟨p, hpe, pauth⟩ := statusHoldOk_auth_cases (hinv.2.2 t ht) (Or.inl hstv)
          have hkey : db.task_payments.filter (fun q => q.task_id == tid) = [p] := by
            have h0 := hpe
            unfold holdsFor at h0
            rw [hteq2] at h0
            exact h0
          apply iff_of_true
          · refine ⟨Or.inl hstv, ?_⟩
            rw [htrack]
          · constructor
            · rintro ⟨h0, hml, hv0⟩
              unfold mostRecentHold at hml
              rw [hpe] at hml
              simp at hml
              rw [← hml] at hv0
              rw [pauth] at hv0
              cases hv0
            · refine ⟨{ p with
                status := HoldStatus.voided,
                release_reason := some ("Task cancelled by " ++ cby ++ ": " ++ reason) },
                ?_, rfl⟩
              unfold mostRecentHold holdsFor
              rw [hp, hteq2]
              rw [filter_updateRows_single (f := fun q => { q with
                status := HoldStatus.voided,
                release_reason := some ("Task cancelled by " ++ cby ++ ": " ++ reason) })
                hkey (fun q hq => by rw [Bool.and_eq_true] at hq; exact hq.1)
                (fun q => rfl)]
              rw [if_pos (by simp [(filter_single_mem hkey).2, pauth])]
              simp
        | inProgress =>
          have hst2 : task.status = TaskStatus.inProgress := by rw [← htt]; exact hstv
          rw [if_pos (by simp [hst2])] at hp
          obtain ⟨p, hpe, pauth⟩ := statusHoldOk_auth_cases (hinv.2.2 t ht)
            (Or.inr (Or.inl hstv))
          have hkey : db.task_payments.filter (fun q => q.task_id == tid) = [p] := by
            have h0 := hpe
            unfold holdsFor at h0
            rw [hteq2] at h0
            exact h0
          apply iff_of_true
          · refine ⟨Or.inr hstv, ?_⟩
            rw [htrack]
          · constructor
            · rintro ⟨h0, hml, hv0⟩
              unfold mostRecentHold at hml
              rw [hpe] at hml
              simp at hml
              rw [← hml] at hv0
              rw [pauth] at hv0
              cases hv0
            · refine ⟨{ p with
                status := HoldStatus.voided,
                release_reason := some ("Task cancelled by " ++ cby ++ ": " ++ reason) },
                ?_, rfl⟩
              unfold mostRecentHold holdsFor
              rw [hp, hteq2]
              rw [filter_updateRows_single (f := fun q => { q with
                status := HoldStatus.voided,
                release_reason := some ("Task cancelled by " ++ cby ++ ": " ++ reason) })
                hkey (fun q hq => by rw [Bool.and_eq_true] at hq; exact hq.1)
                (fun q => rfl)]
              rw [if_pos (by simp [(filter_single_mem hkey).2, pauth])]
              simp
        | posted =>
          have hst2 : task.status = TaskStatus.posted := by rw [← htt]; exact hstv
          rw [if_neg (by simp [hst2])] at hp
          apply iff_of_false
          · rintro ⟨h1, h2⟩
            rcases h1 with h1 | h1 <;> rw [hstv] at h1 <;> cases h1
          · rintro ⟨hnot, hv⟩
            rw [mostRecentHold_congr hp] at hv
            exact hnot hv
        | pendingCustomerApproval =>
          have hst2 : task.status = TaskStatus.pendingCustomerApproval := by
            rw [← htt]; exact hstv
          rw [if_neg (by simp [hst2])] at hp
          apply iff_of_false
          · rintro ⟨h1, h2⟩
            rcases h1 with h1 | h1 <;> rw [hstv] at h1 <;> cases h1
          · rintro ⟨hnot, hv⟩
            rw [mostRecentHold_congr hp] at hv
            exact hnot hv
        | disputed =>
          have hst2 : task.status = TaskStatus.disputed := by rw [← htt]; exact hstv
          rw [if_neg (by simp [hst2])] at hp
          apply iff_of_false
          · rintro ⟨h1, h2⟩
            rcases h1 with h1 | h1 <;> rw [hstv] at h1 <;> cases h1
          · rintro ⟨hnot, hv⟩
            rw [mostRecentHold_congr hp] at hv
            exact hnot hv
        | completed =>
          rw [htt] at hstv
          rw [hstv] at hnc
          simp at hnc
        | cancelled =>
          rw [htt] at hstv
          rw [hstv] at hnx
          simp at hnx
      · rw [if_neg hkt] at htrack
        have htne : t.id ≠ tid := by simpa using hkt
        apply iff_of_false
        · rintro ⟨h1, h2⟩
          rw [htrack] at h2
          rcases h1 with h1 | h1 <;> rw [h1] at h2 <;> cases h2
        · rintro ⟨hnot, hv⟩
          have hpe2 : (cancelTask db tid uid reason cby).2.task_payments.filter
              (fun p => p.task_id == t.id) =
              db.task_payments.filter (fun p => p.task_id == t.id) := by
            rw [hp]
            split
            · rw [filter_updateRows_of_disjoint ?hd ?hf]
              case hd =>
                intro x hx
                rw [Bool.and_eq_true] at hx
                have hxt : x.task_id = tid := by simpa using hx.1
                rw [hxt, beq_eq_false_iff_ne]
                exact fun hc => htne hc.symm
              case hf =>
                intro x
                rfl
            · rfl
          apply hnot
          obtain ⟨h0, hml, hv0⟩ := hv
          refine ⟨h0, ?_, hv0⟩
          unfold mostRecentHold holdsFor at hml ⊢
          rw [← hpe2]
          exact hml
  | usersChange us =>
    exact cancelVoidIff_frozen rfl (mem_unique_of_ids hpw ht' ht hid)
end Sabi
namespace Sabi
/-- **C4** (invariants): over every reachable marketplace state, a task row
is in status `completed` iff its most recent payment hold is `captured`; a
task row in status `disputed` has its most recent hold still `authorized`;
and across any single lifecycle step, a task row moves from `assigned` or
`in_progress` to `cancelled` exactly when its most recent hold becomes
`voided` during that step. -/
theorem payment_correlation (db : DB) (hr : Reachable db) :
    (∀ t ∈ db.tasks,
      (t.status = TaskStatus.completed ↔
        ∃ h, mostRecentHold db t.id = some h ∧ h.status = HoldStatus.captured)) ∧
    (∀ t ∈ db.tasks, t.status = TaskStatus.disputed →
      ∃ h, mostRecentHold db t.id = some h ∧ h.status = HoldStatus.authorized) ∧
    (∀ db', Step db db' → ∀ t ∈ db.tasks, ∀ t' ∈ db'.tasks, t'.id = t.id →
      (((t.status = TaskStatus.assigned ∨ t.status = TaskStatus.inProgress) ∧
          t'.status = TaskStatus.cancelled) ↔
        (¬ (∃ h, mostRecentHold db t.id = some h ∧ h.status = HoldStatus.voided) ∧
          ∃ h, mostRecentHold db' t.id = some h ∧ h.status = HoldStatus.voided))) := by
  have hinv := reachable_inv hr
  refine ⟨?_, ?_, ?_⟩
  · intro t ht
    exact inv_completed_iff hinv ht
  · intro t ht hst
    exact inv_disputed_auth hinv ht hst
  · intro db' hs t ht t' ht' hid
    exact step_cancel_voided_iff hinv hs ht ht' hid

/-- Witness for C4 at the concrete run create → accept → start → complete →
approve, whose final state is `dbCompleted`. -/
theorem payment_correlation_witness :
    (∀ t ∈ dbCompleted.tasks,
      (t.status = TaskStatus.completed ↔
        ∃ h, mostRecentHold dbCompleted t.id = some h ∧
          h.status = HoldStatus.captured)) ∧
    (∀ t ∈ dbCompleted.tasks, t.status = TaskStatus.disputed →
      ∃ h, mostRecentHold dbCompleted t.id = some h ∧
        h.status = HoldStatus.authorized) ∧
    (∀ db', Step dbCompleted db' → ∀ t ∈ dbCompleted.tasks, ∀ t' ∈ db'.tasks,
      t'.id = t.id →
      (((t.status = TaskStatus.assigned ∨ t.status = TaskStatus.inProgress) ∧
          t'.status = TaskStatus.cancelled) ↔
        (¬ (∃ h, mostRecentHold dbCompleted t.id = some h ∧
            h.status = HoldStatus.voided) ∧
          ∃ h, mostRecentHold db' t.id = some h ∧ h.status = HoldStatus.voided))) :=
  payment_correlation dbCompleted
    (Reachable.step
      (Reachable.step
        (Reachable.step
          (Reachable.step
            (Reachable.step (Reachable.init [custC1, taskerW1, taskerW2])
              (Step.create dbInit "c1" "Fix sink" "leaky faucet" "12 Road" 75 "t1"
                (by intro t htm; simp [dbInit] at htm)))
            (Step.accept dbPosted "t1" "w1" "pi_1" true))
          (Step.start dbAssigned "t1" "w1"))
        (Step.complete dbStarted "t1" "w1" (some "all done")))
      (Step.confirm dbPendingA "t1" "c1" true none (some 3) true))
end Sabi
